import Mathlib

/-!
# openalgo-chart: market-data store and chart adapter

A shallow embedding of `src/store/marketDataStore.js` and of the handlers of
`src/hooks/useChart.js`, with the properties of their specification.

Modelling conventions.

* A JavaScript value is a `Val`. Finite numbers are integers, `num n` standing for
  the double `n` (an integer that is no double stands for no value); `NaN` and the
  two infinities are separate values, so that `===` (`Val.strictEq`) is the
  JavaScript relation: reflexive everywhere except at `NaN`.
* The two arithmetic results of the adapter, `Math.max(...) + 1` and
  `Math.random() * 1000`, are rounded as IEEE 754 binary64 rounds them, to the
  nearest double with ties to even (`Double.nearest`).
* ToNumber on a string or an object is a parameter `conv` of the functions that
  convert a chart id: `Val` has neither the grammar of numeric strings nor
  fractions.
* A plain object is a finite map from property names to values, `Obj`; a property
  that is absent reads as `undefined`. Property order and the prototype chain are
  not modelled.
* `Date.now()` is an explicit argument.
* A handler of the adapter is the store call it makes (`none` when it makes none);
  the functions of `src/store/workspaceStore.js`, which is not among the sources,
  are modelled from section 4.1 of the specification and say so.
* A handler is a `useCallback` closure: the `charts` it reads is the list that its
  render read from the store, which may be older than the list the store holds.
  Where two calls are composed the two lists are separate arguments, `rendered`
  and `store`.
* A zustand reducer either returns the state reference it was given
  (`Reduced.same`) or a partial state (`Reduced.patch`), which `zset` merges
  into the state, notifying the subscribers.
-/

/-! ## Definitions -/

/-! ### JavaScript values and objects -/

/-- JavaScript values, as far as the stores compare and copy them. -/
inductive Val where
  | undefined
  | null
  | bool (b : Bool)
  | num (n : Int)
  | nan
  | posInf
  | negInf
  | str (s : String)
  | ref (a : Nat)
  deriving DecidableEq

namespace Val

/-- The operator `a === b`: equal values, except that `NaN` equals nothing. -/
def strictEq (a b : Val) : Bool :=
  match a, b with
  | nan, _ => false
  | _, nan => false
  | a, b => decide (a = b)

/-- The operator `a !== b`. -/
def strictNe (a b : Val) : Bool := !(strictEq a b)

/-- ToBoolean: the falsy values are `undefined`, `null`, `false`, `0`, `NaN`, `''`. -/
def truthy : Val → Bool
  | undefined => false
  | null => false
  | bool b => b
  | num n => decide (n ≠ 0)
  | nan => false
  | posInf => true
  | negInf => true
  | str s => decide (s ≠ "")
  | ref _ => true

/-- The operator `a || b`. -/
def or (a b : Val) : Val := if a.truthy then a else b

/-- The operator `!a`. -/
def not (a : Val) : Val := bool (!a.truthy)

end Val

/-- A plain object: property name to value, `none` for an absent property. -/
abbrev Obj := String → Option Val

namespace Obj

/-- The literal `{}`. -/
def empty : Obj := fun _ => none

/-- A property read `o.k`: `undefined` when the property is absent. -/
def get (o : Obj) (k : String) : Val := (o k).getD Val.undefined

/-- A property write: `{ ...o, [k]: v }`, or `o[k] = v` on a fresh copy. -/
def set (o : Obj) (k : String) (v : Val) : Obj :=
  fun k' => if k' = k then some v else o k'

/-- Object spread `{ ...base, ...ext }`: every own property of `ext` overrides. -/
def spread (base ext : Obj) : Obj :=
  fun k => match ext k with
    | some v => some v
    | none => base k

/-- An object literal `{ k1: v1, k2: v2, ... }`. -/
def ofList (l : List (String × Val)) : Obj := fun k => l.lookup k

end Obj

/-! ### IEEE 754 doubles -/

namespace Double

/-- The integer nearest to a rational, a tie going to the even one. -/
def roundHalfEven (y : ℚ) : Int :=
  if y - ⌊y⌋ < 1 / 2 then ⌊y⌋
  else if 1 / 2 < y - ⌊y⌋ then ⌊y⌋ + 1
  else if ⌊y⌋ % 2 = 0 then ⌊y⌋ else ⌊y⌋ + 1

/-- The spacing of the doubles around a rational: 2^(e - 52) for a magnitude in
[2^e, 2^(e + 1)), the exponent e being at least -1022 (below 2^-1022 the doubles are
subnormal and 2^-1074 apart). -/
def ulp (x : ℚ) : ℚ := 2 ^ (max (Int.log 2 |x|) (-1022) - 52)

/-- The double nearest to a rational, a tie going to the even significand: the
result of a double operation whose exact result is `x`, while it is in range. -/
def nearest (x : ℚ) : ℚ := if x = 0 then 0 else roundHalfEven (x / ulp x) * ulp x

/-- Whether a rational is a double. -/
def isDouble (x : ℚ) : Prop := nearest x = x

end Double

/-! ### The market-data store, `src/store/marketDataStore.js` -/

namespace MarketDataStore

/-- The object `tickerData`: instrument keys with their snapshots, in insertion order. -/
abbrev TickerData := List (String × Obj)

/-- The property read `tickerData[key]`: `none` is `undefined`. -/
def lookup (td : TickerData) (key : String) : Option Obj := List.lookup key td

/-- The write `tickerData[key] = snap` (on a copy): replaces the snapshot of an
existing key in place, appends a new key. -/
def upsert : TickerData → String → Obj → TickerData
  | [], key, snap => [(key, snap)]
  | (k, o) :: rest, key, snap =>
    if k = key then (k, snap) :: rest else (k, o) :: upsert rest key snap

/-- The state of the store. -/
structure State where
  tickerData : TickerData
  subscriptions : List String

/-- What a reducer handed to `set` returns: the state it was given (`return state`),
or a partial state `{ tickerData }`. -/
inductive Reduced where
  | same
  | patch (tickerData : TickerData)

/-- The `set` of zustand on a reducer result: the same reference leaves the state as
it is and notifies nobody; a partial state is merged over the state. -/
def zset (s : State) : Reduced → State
  | .same => s
  | .patch td => { s with tickerData := td }

/-- The expression `exchange || 'NSE'`; `none` is an absent (`undefined`) exchange. -/
def exchangeOrNSE : Option String → String
  | none => "NSE"
  | some e => if e = "" then "NSE" else e

/-- The expression `tickerData[key] || {}`. -/
def snapshotOrEmpty (td : TickerData) (key : String) : Obj :=
  match lookup td key with
  | some o => o
  | none => Obj.empty

/-- The reducer of `updateTicker` (lines 16-35); `now` is `Date.now()`. -/
def updateTickerReducer (symbol : String) (exchange : Option String) (data : Obj)
    (now : Int) (state : State) : Reduced :=
  let key := symbol ++ ":" ++ exchangeOrNSE exchange
  let oldData := snapshotOrEmpty state.tickerData key
  if (oldData.get "ltp").strictEq (data.get "ltp")
      && (oldData.get "volume").strictEq (data.get "volume") then
    .same
  else
    .patch (upsert state.tickerData key
      (((Obj.empty.spread oldData).spread data).set "lastUpdated" (.num now)))

/-- The action `updateTicker(symbol, exchange, data)`. -/
def updateTicker (symbol : String) (exchange : Option String) (data : Obj)
    (now : Int) (state : State) : State :=
  zset state (updateTickerReducer symbol exchange data now state)

/-- One element `{ symbol, exchange, data }` of the argument of `updateTickers`. -/
structure TickUpdate where
  symbol : String
  exchange : Option String
  data : Obj

/-- The optional-chained read `newTickerData[key]?.ltp`. -/
def storedLtp (td : TickerData) (key : String) : Val :=
  match lookup td key with
  | some o => o.get "ltp"
  | none => Val.undefined

/-- The body of the `forEach` callback (lines 42-52) on the pair
`(newTickerData, hasChanges)`; `now` is `Date.now()` at that entry. -/
def applyEntry (now : Int) (u : TickUpdate) (acc : TickerData × Bool) : TickerData × Bool :=
  let key := u.symbol ++ ":" ++ exchangeOrNSE u.exchange
  if (storedLtp acc.1 key).strictNe (u.data.get "ltp") then
    (upsert acc.1 key
      (((Obj.empty.spread (snapshotOrEmpty acc.1 key)).spread u.data).set
        "lastUpdated" (.num now)), true)
  else acc

/-- The loop `updates.forEach(...)`; `clock i` is what `Date.now()` reads while the
entry at index `i` is processed. -/
def forEachEntry (clock : Nat → Int) : Nat → List TickUpdate → TickerData × Bool → TickerData × Bool
  | _, [], acc => acc
  | i, u :: us, acc => forEachEntry clock (i + 1) us (applyEntry (clock i) u acc)

/-- The reducer of `updateTickers` (lines 38-57). -/
def updateTickersReducer (updates : List TickUpdate) (clock : Nat → Int)
    (state : State) : Reduced :=
  let r := forEachEntry clock 0 updates (state.tickerData, false)
  if !r.2 then .same else .patch r.1

/-- The action `updateTickers(updates)`. -/
def updateTickers (updates : List TickUpdate) (clock : Nat → Int) (state : State) : State :=
  zset state (updateTickersReducer updates clock state)

/-- The selector `getTicker(symbol, exchange)` (lines 59-62); `none` is `undefined`. -/
def getTicker (state : State) (symbol : String) (exchange : Option String) : Option Obj :=
  let key := symbol ++ ":" ++ exchangeOrNSE exchange
  lookup state.tickerData key

/-- The field `f` of the snapshot that `getTicker` finds, an absent snapshot having
no field at all. -/
def storedField (state : State) (symbol : String) (exchange : Option String)
    (f : String) : Val :=
  match getTicker state symbol exchange with
  | some o => o.get f
  | none => Val.undefined

/-- The own property `f` of the snapshot that `getTicker` finds: `none` when the
snapshot is absent or has no such property. -/
def storedOwn (state : State) (symbol : String) (exchange : Option String)
    (f : String) : Option Val :=
  match getTicker state symbol exchange with
  | some o => o f
  | none => none

/-- The instrument key as the specification writes it:
`symbol + ":" + (exchange or "NSE")`. -/
def instrumentKey (symbol : String) (exchange : Option String) : String :=
  symbol ++ ":" ++ exchangeOrNSE exchange

/-- The test of line 45 for the entry `u` against the running copy `td`. -/
def entryChanges (td : TickerData) (u : TickUpdate) : Bool :=
  (storedLtp td (instrumentKey u.symbol u.exchange)).strictNe (u.data.get "ltp")

/-- The write of lines 46-50 for the entry `c.1` at clock reading `c.2`. -/
def writeEntry (td : TickerData) (c : TickUpdate × Int) : TickerData :=
  upsert td (instrumentKey c.1.symbol c.1.exchange)
    (((Obj.empty.spread (snapshotOrEmpty td (instrumentKey c.1.symbol c.1.exchange))).spread
      c.1.data).set "lastUpdated" (.num c.2))

/-- The changed entries of a batch: those for which the test of line 45 holds when
the loop reaches them, in call order, each with the clock reading at that moment. -/
def changedEntries (clock : Nat → Int) : Nat → List TickUpdate → TickerData →
    List (TickUpdate × Int)
  | _, [], _ => []
  | i, u :: us, td =>
    if entryChanges td u then
      (u, clock i) :: changedEntries clock (i + 1) us (writeEntry td (u, clock i))
    else changedEntries clock (i + 1) us td

/-- The last entry of a batch whose instrument key is `key`. -/
def lastWithKey : List TickUpdate → String → Option TickUpdate
  | [], _ => none
  | u :: us, key =>
    match lastWithKey us key with
    | some v => some v
    | none => if instrumentKey u.symbol u.exchange = key then some u else none

/-- The instrument keys of `tickerData`. -/
def keys (td : TickerData) : List String := td.map Prod.fst

/-- The number of instrument keys of `tickerData`. -/
def keyCount (td : TickerData) : Nat := (keys td).toFinset.card

/-- Whether a symbol contains no colon. -/
def colonFree (symbol : String) : Prop := ':' ∉ symbol.data

/-- The snapshot under NSE:INFY that the example of C6 starts from. -/
def staleVolumeState : State :=
  { tickerData := [("INFY:NSE",
      Obj.ofList [("ltp", .num 100), ("volume", .num 10), ("lastUpdated", .num 1)])],
    subscriptions := [] }

/-- A tick that keeps the ltp of `staleVolumeState` and raises the volume. -/
def volumeTick : TickUpdate :=
  { symbol := "INFY", exchange := some "NSE",
    data := Obj.ofList [("ltp", .num 100), ("volume", .num 11)] }

/-- The snapshot `{ ...oldData, ...data, lastUpdated: now }` that an accepted write
to (symbol, exchange) stores. -/
def writtenSnapshot (state : State) (symbol : String) (exchange : Option String)
    (data : Obj) (now : Int) : Obj :=
  ((Obj.empty.spread ((getTicker state symbol exchange).getD Obj.empty)).spread data).set
    "lastUpdated" (.num now)

end MarketDataStore

/-! ### The chart adapter, `src/hooks/useChart.js` -/

namespace UseChart

/-- A comparison overlay `{ symbol, exchange, color }` of a chart. The symbol and the
exchange are strings, the exchange possibly absent (`none`), so that `===` on them is
equality; the color is any value. -/
structure ComparisonSymbol where
  symbol : String
  exchange : Option String
  color : Val

/-- A chart of the workspace. A property that the object lacks reads as `undefined`;
`comparisonSymbols` may be absent (`none`); an indicator is a plain object with at
least `id`, `type` and `visible`. -/
structure Chart where
  id : Val
  symbol : Val
  exchange : Val
  interval : Val
  indicators : List Obj
  comparisonSymbols : Option (List ComparisonSymbol)
  strategyConfig : Val

/-- The expression `charts.find(c => c.id === activeChartId)`; `none` is `undefined`. -/
def findChart (charts : List Chart) (activeChartId : Val) : Option Chart :=
  charts.find? (fun c => c.id.strictEq activeChartId)

/-- The derived `activeChart` (lines 38-41):
`charts.find(c => c.id === activeChartId) || charts[0] || {}`. A chart object is
truthy; `none` is the empty object `{}`. -/
def activeChart (charts : List Chart) (activeChartId : Val) : Option Chart :=
  match findChart charts activeChartId with
  | some c => some c
  | none =>
    match charts.head? with
    | some c => some c
    | none => none

/-- The reads `activeChart.symbol`, `activeChart.exchange`, `activeChart.interval`
on a chart or on `{}`. -/
def readField (field : Chart → Val) : Option Chart → Val
  | some c => field c
  | none => Val.undefined

/-- The derived `currentSymbol` (line 44). -/
def currentSymbol (charts : List Chart) (activeChartId : Val) : Val :=
  (readField Chart.symbol (activeChart charts activeChartId)).or (.str "NIFTY 50")

/-- The derived `currentExchange` (line 45). -/
def currentExchange (charts : List Chart) (activeChartId : Val) : Val :=
  (readField Chart.exchange (activeChart charts activeChartId)).or (.str "NSE")

/-- The derived `currentInterval` (line 46). -/
def currentInterval (charts : List Chart) (activeChartId : Val) : Val :=
  (readField Chart.interval (activeChart charts activeChartId)).or (.str "1d")

/-- One input or style definition `{ key, default? }` of the indicator catalog; an
absent `default` is `undefined`. -/
structure FieldDef where
  key : String
  default : Val

/-- One entry of the indicator catalog; `inputs` and `style` may be absent. -/
structure IndicatorConfig where
  inputs : Option (List FieldDef)
  style : Option (List FieldDef)

/-- The imported table `indicatorConfigs`, read as `indicatorConfigs[type]`. -/
abbrev Catalog := String → Option IndicatorConfig

/-- The loops of lines 69-73 and 78-82: every definition whose default is not
`undefined` is assigned, in order, to `defaultSettings`. -/
def seedDefaults (defs : List FieldDef) (defaultSettings : Obj) : Obj :=
  defs.foldl (fun acc d =>
    if d.default.strictNe Val.undefined then acc.set d.key d.default else acc) defaultSettings

/-- The call `Object.assign(target, source)`. -/
def objectAssign (target source : Obj) : Obj := target.spread source

/-- The object `defaultSettings` when line 92 is reached (lines 64-90). -/
def defaultSettings (indicatorConfigs : Catalog) (type : String) : Obj :=
  let config := indicatorConfigs type
  let s0 := Obj.empty
  let s1 := match config with
    | some c => (match c.inputs with
      | some inputs => seedDefaults inputs s0
      | none => s0)
    | none => s0
  let s2 := match config with
    | some c => (match c.style with
      | some style => seedDefaults style s1
      | none => s1)
    | none => s1
  match config with
  | some _ => s2
  | none =>
    let a := if type = "sma" then
        objectAssign s2 (Obj.ofList [("period", .num 20), ("color", .str "#2196F3")]) else s2
    let b := if type = "ema" then
        objectAssign a (Obj.ofList [("period", .num 20), ("color", .str "#FF9800")]) else a
    if type = "tpo" then
        objectAssign b (Obj.ofList [("blockSize", .str "30m"), ("tickSize", .str "auto")]) else b

/-- The call `storeAddIndicator(chartId, indicator)` that `addIndicator` makes. -/
structure AddIndicatorCall where
  chartId : Val
  indicator : Obj

/-- The expression `Math.floor(Math.random() * 1000)` of line 94, `random` being the
draw: the floor of the double product. -/
def salt (random : ℚ) : Int := ⌊Double.nearest (random * 1000)⌋

/-- The handler `addIndicator(type)` (lines 63-104); `timestamp` is `Date.now()` and
`random` is `Math.random()`. -/
def addIndicator (indicatorConfigs : Catalog) (activeChartId : Val) (type : String)
    (timestamp : Int) (random : ℚ) : AddIndicatorCall :=
  let id := type ++ "_" ++ toString timestamp ++ "_" ++ toString (salt random)
  let newIndicator :=
    (Obj.ofList [("id", .str id), ("type", .str type), ("visible", .bool true)]).spread
      (defaultSettings indicatorConfigs type)
  { chartId := activeChartId, indicator := newIndicator }

/-- The call `storeUpdateIndicator(chartId, indicatorId, patch)`. -/
structure UpdateIndicatorCall where
  chartId : Val
  indicatorId : Val
  patch : Obj

/-- The handler `toggleIndicatorVisibility(indicatorId)` (lines 110-118): the store
call it makes, `none` when it returns without one. -/
def toggleIndicatorVisibility (charts : List Chart) (activeChartId : Val)
    (indicatorId : Val) : Option UpdateIndicatorCall :=
  match charts.find? (fun c => c.id.strictEq activeChartId) with
  | none => none
  | some chart =>
    match chart.indicators.find? (fun ind => (ind.get "id").strictEq indicatorId) with
    | some indicator =>
      some { chartId := activeChartId, indicatorId := indicatorId,
             patch := Obj.ofList [("visible", (indicator.get "visible").not)] }
    | none => none

/-- Replaces the first element that satisfies `p` by its image under `f`. -/
def updateFirst {α : Type} (p : α → Bool) (f : α → α) : List α → List α
  | [] => []
  | x :: xs => if p x then f x :: xs else x :: updateFirst p f xs

/-- Modelled from the spec: the merge of `partialSettings` into the matching
indicator of one chart, the part of `WorkspaceStore.updateIndicator` that acts inside
the chart; the rest of the chart is kept. -/
def patchIndicator (indicatorId : Val) (partialSettings : Obj) (c : Chart) : Chart :=
  Chart.mk c.id c.symbol c.exchange c.interval
    (updateFirst (fun ind => (ind.get "id").strictEq indicatorId)
      (fun ind => ind.spread partialSettings) c.indicators)
    c.comparisonSymbols c.strategyConfig

/-- Modelled from the spec: `WorkspaceStore.updateIndicator` of
`src/store/workspaceStore.js`, which is not among the sources. Section 4.1:
"merges partialSettings into the matching indicator; no-op if chart or indicator
missing". The matching chart and indicator are the first with the id, the ones
that `find` gives the adapter. -/
def storeUpdateIndicator (charts : List Chart) (chartId indicatorId : Val)
    (partialSettings : Obj) : List Chart :=
  updateFirst (fun c => c.id.strictEq chartId) (patchIndicator indicatorId partialSettings)
    charts

/-- The chart list of the store after `toggleIndicatorVisibility(indicatorId)`. The
handler reads `rendered`, the `charts` that its render captured (line 111, dependency
list of line 118); the store applies the call, if the handler makes one, to `store`,
the list it holds then. -/
def afterToggle (rendered store : List Chart) (activeChartId : Val) (indicatorId : Val) :
    List Chart :=
  match toggleIndicatorVisibility rendered activeChartId indicatorId with
  | some call => storeUpdateIndicator store call.chartId call.indicatorId call.patch
  | none => store

/-- The last value that a list of declared defaults gives a key. -/
def lastDefault : List (String × Val) → String → Option Val
  | [], _ => none
  | (k, v) :: rest, key =>
    match lastDefault rest key with
    | some w => some w
    | none => if key = k then some v else none

/-- The declared defaults of a catalog entry, in declaration order: the inputs and
then the styles that carry a default. -/
def declaredDefaults (c : IndicatorConfig) : List (String × Val) :=
  (((c.inputs.getD []) ++ (c.style.getD [])).filter
    (fun d => d.default.strictNe Val.undefined)).map (fun d => (d.key, d.default))

/-- The settings that the specification gives an indicator of `type`: from a
catalog entry, the mapping key to declared default, a later declaration (a style
after an input) taking precedence; without an entry, the fallback table of the three
legacy types. -/
def specSettings (indicatorConfigs : Catalog) (type : String) : Obj :=
  match indicatorConfigs type with
  | some c => fun k => lastDefault (declaredDefaults c) k
  | none =>
    if type = "sma" then Obj.ofList [("period", .num 20), ("color", .str "#2196F3")]
    else if type = "ema" then Obj.ofList [("period", .num 20), ("color", .str "#FF9800")]
    else if type = "tpo" then Obj.ofList [("blockSize", .str "30m"), ("tickSize", .str "auto")]
    else Obj.empty

/-- The declared defaults of a list of definitions: those that carry a default. -/
def carried (defs : List FieldDef) : List (String × Val) :=
  (defs.filter (fun d => d.default.strictNe Val.undefined)).map (fun d => (d.key, d.default))

/-- The call `updateChart(chartId, { comparisonSymbols })` of the comparison handlers. -/
structure UpdateComparisonCall where
  chartId : Val
  comparisonSymbols : List ComparisonSymbol

/-- The predicate `c => c.symbol === symbol && c.exchange === exchange`. -/
def samePair (symbol : String) (exchange : Option String) (c : ComparisonSymbol) : Bool :=
  decide (c.symbol = symbol) && decide (c.exchange = exchange)

/-- The handler `addComparisonSymbol(symbol, exchange, color)` (lines 130-141): the
store call it makes, `none` when it returns without one. -/
def addComparisonSymbol (charts : List Chart) (activeChartId : Val) (symbol : String)
    (exchange : Option String) (color : Val) : Option UpdateComparisonCall :=
  match charts.find? (fun c => c.id.strictEq activeChartId) with
  | none => none
  | some chart =>
    let current := chart.comparisonSymbols.getD []
    match current.find? (samePair symbol exchange) with
    | some _ => none
    | none =>
      some { chartId := activeChartId,
             comparisonSymbols := current ++ [{ symbol := symbol, exchange := exchange,
                                                color := color }] }

/-- The handler `removeComparisonSymbol(symbol, exchange)` (lines 143-151): the store
call it makes, `none` when it returns without one. -/
def removeComparisonSymbol (charts : List Chart) (activeChartId : Val) (symbol : String)
    (exchange : Option String) : Option UpdateComparisonCall :=
  match charts.find? (fun c => c.id.strictEq activeChartId) with
  | none => none
  | some chart =>
    let current := chart.comparisonSymbols.getD []
    some { chartId := activeChartId,
           comparisonSymbols := current.filter (fun c => !(samePair symbol exchange c)) }

/-- Modelled from the spec: the merge of `{ comparisonSymbols }` into one chart, the
part of `WorkspaceStore.updateChart` that acts on the chart; the rest is kept. -/
def withComparisonSymbols (list : List ComparisonSymbol) (c : Chart) : Chart :=
  Chart.mk c.id c.symbol c.exchange c.interval c.indicators (some list) c.strategyConfig

/-- Modelled from the spec: `WorkspaceStore.updateChart` of
`src/store/workspaceStore.js`, which is not among the sources, on a patch
`{ comparisonSymbols }`. Section 4.1: "merges partialFields into the chart matching
id; no-op (charts list unchanged by identity) if id not found. Must preserve the
chart's position in the sequence." The matching chart is the first with the id, the
one that `find` gives the adapter. -/
def storeUpdateComparison (charts : List Chart) (chartId : Val)
    (list : List ComparisonSymbol) : List Chart :=
  updateFirst (fun c => c.id.strictEq chartId) (withComparisonSymbols list) charts

/-- The chart list after `addComparisonSymbol(symbol, exchange, color)`. -/
def afterAddComparison (charts : List Chart) (activeChartId : Val) (symbol : String)
    (exchange : Option String) (color : Val) : List Chart :=
  match addComparisonSymbol charts activeChartId symbol exchange color with
  | some call => storeUpdateComparison charts call.chartId call.comparisonSymbols
  | none => charts

/-- The chart list after `removeComparisonSymbol(symbol, exchange)`. -/
def afterRemoveComparison (charts : List Chart) (activeChartId : Val) (symbol : String)
    (exchange : Option String) : List Chart :=
  match removeComparisonSymbol charts activeChartId symbol exchange with
  | some call => storeUpdateComparison charts call.chartId call.comparisonSymbols
  | none => charts

/-- The comparison list of the active chart, `chart.comparisonSymbols || []`; empty
when there is no active chart. -/
def activeComparison (charts : List Chart) (activeChartId : Val) : List ComparisonSymbol :=
  match charts.find? (fun c => c.id.strictEq activeChartId) with
  | some chart => chart.comparisonSymbols.getD []
  | none => []

/-- The uniqueness invariant of a comparison list: no two entries have the same
(symbol, exchange) pair. -/
def UniquePairs (l : List ComparisonSymbol) : Prop :=
  l.Pairwise (fun a b => ¬ (a.symbol = b.symbol ∧ a.exchange = b.exchange))

/-- ToNumber on a chart id. A number converts to itself, `undefined` to NaN, `null`
to 0, a boolean to 0 or 1. The number that a string spells and the number that an
object yields are given by `conv`. -/
def toNumber (conv : Val → Val) : Val → Val
  | .undefined => .nan
  | .null => .num 0
  | .bool b => .num (if b then 1 else 0)
  | .num n => .num n
  | .nan => .nan
  | .posInf => .posInf
  | .negInf => .negInf
  | .str s => conv (.str s)
  | .ref a => conv (.ref a)

/-- The larger of two numbers as `Math.max` takes it: NaN if either is NaN. -/
def maxNumber : Val → Val → Val
  | .nan, _ => .nan
  | _, .nan => .nan
  | .posInf, _ => .posInf
  | _, .posInf => .posInf
  | .negInf, b => b
  | a, .negInf => a
  | .num a, .num b => .num (max a b)
  | _, _ => .nan

/-- The call `Math.max(...args)`: `-Infinity` for no argument. -/
def mathMax (conv : Val → Val) (args : List Val) : Val :=
  args.foldl (fun acc v => maxNumber acc (toNumber conv v)) .negInf

/-- The sum `x + 1` for a number `x`: the double nearest to the exact sum, an
infinity when that is out of the range of the doubles. -/
def addOne : Val → Val
  | .num n =>
    if (2 : ℚ) ^ 1024 ≤ Double.nearest ((n : ℚ) + 1) then .posInf
    else if Double.nearest ((n : ℚ) + 1) ≤ -(2 : ℚ) ^ 1024 then .negInf
    else .num ⌊Double.nearest ((n : ℚ) + 1)⌋
  | .posInf => .posInf
  | .negInf => .negInf
  | _ => .nan

/-- What `addChart` does: the chart it hands to `addChart` of the store and the id it
returns. -/
structure AddChartResult where
  newId : Val
  newChart : Chart

/-- The handler `addChart()` (lines 161-175); `charts` is the list that its render
captured. -/
def addChart (conv : Val → Val) (charts : List Chart) : AddChartResult :=
  let newId := addOne (mathMax conv (charts.map (fun c => c.id)))
  { newId := newId,
    newChart := { id := newId, symbol := .str "NIFTY 50", exchange := .str "NSE",
                  interval := .str "1d", indicators := [], comparisonSymbols := some [],
                  strategyConfig := .null } }

/-- The handler `removeChart(chartId)` (lines 177-180): the argument of the call to
`removeChart` of the store, `none` when the handler returns without calling it;
`charts` is the list that its render captured. -/
def removeChart (charts : List Chart) (chartId : Val) : Option Val :=
  if charts.length ≤ 1 then none else some chartId

/-- Modelled from the spec: `WorkspaceStore.addChart` of `src/store/workspaceStore.js`,
which is not among the sources. Section 4.1: "appends a fully-formed chart object
(id pre-assigned by caller); no uniqueness check performed here". -/
def storeAddChart (charts : List Chart) (chart : Chart) : List Chart :=
  charts ++ [chart]

/-- Modelled from the spec: `WorkspaceStore.removeChart` of
`src/store/workspaceStore.js`, which is not among the sources. Section 4.1: "removes
by id ... the store itself performs the removal unconditionally if asked": every
chart whose id is (`===`) `chartId` goes, the others stay in their order. -/
def storeRemoveChart (charts : List Chart) (chartId : Val) : List Chart :=
  charts.filter (fun c => c.id.strictNe chartId)

/-- The chart list of the store after `addChart()` of the render that captured
`rendered`, the store holding `store`: the id is computed from `rendered` (line 162),
the chart is appended to the list of `useWorkspaceStore.getState()` (line 173). -/
def addChartFrom (conv : Val → Val) (rendered store : List Chart) : List Chart :=
  storeAddChart store (addChart conv rendered).newChart

/-- The chart list of the store after `removeChart(chartId)` of the render that
captured `rendered`, the store holding `store`: the guard counts `rendered`
(line 178), the removal is from the list of `useWorkspaceStore.getState()`
(line 179). -/
def removeChartFrom (rendered store : List Chart) (chartId : Val) : List Chart :=
  match removeChart rendered chartId with
  | some id => storeRemoveChart store id
  | none => store

/-- The chart list after the adapter's `addChart()`, called from a render that shows
the list of the store. -/
def afterAddChart (conv : Val → Val) (charts : List Chart) : List Chart :=
  storeAddChart charts (addChart conv charts).newChart

/-- The chart list after the adapter's `removeChart(chartId)`, called from a render
that shows the list of the store. -/
def afterRemoveChart (charts : List Chart) (chartId : Val) : List Chart :=
  match removeChart charts chartId with
  | some id => storeRemoveChart charts id
  | none => charts

/-- The two chart lists of the hook: `rendered` is the `charts` that the last render
read and that the callbacks of that render captured, `store` is the `charts` that the
store holds. -/
structure Workspace where
  rendered : List Chart
  store : List Chart

/-- One event of the multi-chart management: a call of the adapter's `addChart` or
`removeChart`, or a render of the hook, which reads `charts` from the store and
makes new callbacks over it. -/
inductive ChartOp where
  | add
  | remove (chartId : Val)
  | render

/-- One event on the two chart lists. -/
def step (conv : Val → Val) (w : Workspace) : ChartOp → Workspace
  | .add => { rendered := w.rendered, store := addChartFrom conv w.rendered w.store }
  | .remove chartId =>
    { rendered := w.rendered, store := removeChartFrom w.rendered w.store chartId }
  | .render => { rendered := w.store, store := w.store }

/-- The two chart lists after a sequence of events. -/
def runOps (conv : Val → Val) : Workspace → List ChartOp → Workspace
  | w, [] => w
  | w, op :: ops => runOps conv (step conv w op) ops

/-- The sequence of events in which a render follows every event of `ops`. -/
def renderAfterEach : List ChartOp → List ChartOp
  | [] => []
  | op :: ops => op :: .render :: renderAfterEach ops

/-- The predicate `Number.isSafeInteger`: an integer of magnitude below 2^53. -/
def isSafeInteger : Val → Bool
  | .num n => decide (-(2 : Int) ^ 53 < n ∧ n < 2 ^ 53)
  | _ => false

/-- The state that a sequence of calls, each followed by a render, keeps: the render
shows the list of the store, which has a chart, and the ids are distinct integers
above -2^53 that stay below 2^53 when `room` more charts are added. -/
def FreshWithRoom (w : Workspace) (room : Nat) : Prop :=
  w.rendered = w.store ∧ w.store ≠ [] ∧ (w.store.map (fun c => c.id)).Nodup
    ∧ ∀ c ∈ w.store, ∃ n : Int, c.id = .num n ∧ -(2 : Int) ^ 53 < n ∧ n + room < 2 ^ 53

/-- Whether a value is a finite integer. -/
def isInteger : Val → Bool
  | .num _ => true
  | _ => false

/-- A catalog whose entry for "rsi" declares defaults under the keys `type` and
`visible`. -/
def shadowingCatalog : Catalog := fun type =>
  if type = "rsi" then
    some { inputs := some [{ key := "period", default := .num 14 },
                           { key := "type", default := .str "line" }],
           style := some [{ key := "visible", default := .bool false }] }
  else none

/-- A workspace of two charts with the same id. -/
def sameIdCharts : List Chart :=
  [{ id := .num 1, symbol := .str "RELIANCE", exchange := .str "NSE", interval := .str "5m",
     indicators := [], comparisonSymbols := some [], strategyConfig := .null },
   { id := .num 1, symbol := .str "TCS", exchange := .str "NSE", interval := .str "1d",
     indicators := [], comparisonSymbols := some [], strategyConfig := .null }]

/-- A workspace of two charts with the ids 2^53 and 1. -/
def bigIdCharts : List Chart :=
  [{ id := .num (2 ^ 53), symbol := .str "RELIANCE", exchange := .str "NSE",
     interval := .str "5m", indicators := [], comparisonSymbols := some [],
     strategyConfig := .null },
   { id := .num 1, symbol := .str "TCS", exchange := .str "NSE", interval := .str "1d",
     indicators := [], comparisonSymbols := some [], strategyConfig := .null }]

/-- A workspace of one chart with the id 2^53. -/
def oneBigIdChart : List Chart :=
  [{ id := .num (2 ^ 53), symbol := .str "RELIANCE", exchange := .str "NSE",
     interval := .str "5m", indicators := [], comparisonSymbols := some [],
     strategyConfig := .null }]

/-- A ToNumber of strings and objects for workspaces whose chart ids are all numbers,
where it is applied to nothing. -/
def noConversion : Val → Val := fun _ => .nan

/-- A workspace with one chart whose symbol is the empty string. -/
def blankSymbolCharts : List Chart :=
  [{ id := .num 1, symbol := .str "", exchange := .str "NSE", interval := .str "1d",
     indicators := [], comparisonSymbols := some [], strategyConfig := .null }]

end UseChart

/-! ### Concrete inputs -/

namespace MarketDataStore

/-- The tick `{ ltp: 100, volume: 10 }` of the specification. -/
def tick100 : Obj := Obj.ofList [("ltp", .num 100), ("volume", .num 10)]

/-- The tick `{ ltp: 101, volume: 10 }` of the specification. -/
def tick101 : Obj := Obj.ofList [("ltp", .num 101), ("volume", .num 10)]

/-- A tick whose ltp is `NaN`. -/
def tickNaN : Obj := Obj.ofList [("ltp", .nan), ("volume", .num 10)]

/-- The empty cache. -/
def emptyState : State := { tickerData := [], subscriptions := [] }

/-- A cache that holds `tick100` for S:NSE, written at time 5. -/
def heldState : State :=
  { tickerData := [("S:NSE", tick100.set "lastUpdated" (.num 5))], subscriptions := [] }

/-- A cache that holds a snapshot with the ltp `NaN` for S:NSE, written at time 5. -/
def nanHeldState : State :=
  { tickerData := [("S:NSE", tickNaN.set "lastUpdated" (.num 5))], subscriptions := [] }

/-- A batch of one entry for S, without exchange, that carries `tick100`. -/
def heldBatch : List TickUpdate :=
  [{ symbol := "S", exchange := none, data := tick100 }]

/-- A batch of one entry for S:NSE whose ltp is `NaN`. -/
def nanBatch : List TickUpdate :=
  [{ symbol := "S", exchange := some "NSE", data := Obj.ofList [("ltp", .nan)] }]

/-- The batch A = 1, B = 2 of the specification. -/
def abBatch : List TickUpdate :=
  [{ symbol := "A", exchange := some "NSE", data := Obj.ofList [("ltp", .num 1)] },
   { symbol := "B", exchange := some "NSE", data := Obj.ofList [("ltp", .num 2)] }]

end MarketDataStore

namespace UseChart

/-- A workspace of two charts. -/
def twoCharts : List Chart :=
  [{ id := .num 1, symbol := .str "RELIANCE", exchange := .str "NSE", interval := .str "5m",
     indicators := [], comparisonSymbols := some [], strategyConfig := .null },
   { id := .num 2, symbol := .str "TCS", exchange := .str "BSE", interval := .str "1h",
     indicators := [Obj.ofList [("id", .str "sma_1_7"), ("type", .str "sma"),
       ("visible", .bool true), ("period", .num 20)]],
     comparisonSymbols := some [], strategyConfig := .null }]

end UseChart

/-! ## Theorems -/

/-! ### Values, objects and the ticker map -/

namespace MarketDataStore

theorem lookup_upsert_self (td : TickerData) (key : String) (snap : Obj) :
    lookup (upsert td key snap) key = some snap := by
  induction td with
  | nil => simp [upsert, lookup, List.lookup]
  | cons p rest ih =>
    obtain ⟨k, o⟩ := p
    by_cases h : k = key
    · subst h; simp [upsert, lookup, List.lookup]
    · have h2 : (key == k) = false := by
        simpa using fun e => h e.symm
      simp only [upsert, h, if_false, lookup, List.lookup, h2]
      exact ih

theorem lookup_upsert_other (td : TickerData) (key key2 : String) (snap : Obj)
    (hne : key2 ≠ key) : lookup (upsert td key snap) key2 = lookup td key2 := by
  induction td with
  | nil =>
    have h2 : (key2 == key) = false := by simpa using hne
    simp [upsert, lookup, List.lookup, h2]
  | cons p rest ih =>
    obtain ⟨k, o⟩ := p
    by_cases h : k = key
    · subst h
      have h2 : (key2 == k) = false := by simpa using hne
      simp [upsert, lookup, List.lookup, h2]
    · simp only [upsert, h, if_false, lookup, List.lookup]
      cases hk : key2 == k
      · exact ih
      · rfl

end MarketDataStore

namespace Val

theorem strictEq_self (a : Val) (h : a ≠ nan) : strictEq a a = true := by
  cases a <;> simp_all [strictEq]

theorem eq_of_strictEq {a b : Val} (h : strictEq a b = true) : a = b := by
  cases a <;> cases b <;> simp_all [strictEq]

theorem strictEq_of_eq {a b : Val} (h : a = b) (hb : b ≠ nan) : strictEq a b = true := by
  subst h
  exact strictEq_self a hb

/-- The test `a === b` fails exactly when the values differ or are `NaN`. -/
theorem strictEq_eq_false_iff (a b : Val) : strictEq a b = false ↔ a ≠ b ∨ b = nan := by
  constructor
  · intro h
    by_cases hab : a = b
    · right
      by_contra hb
      rw [strictEq_of_eq hab hb] at h
      cases h
    · exact Or.inl hab
  · intro h
    cases hs : strictEq a b with
    | false => rfl
    | true =>
      have hab := eq_of_strictEq hs
      rcases h with h | h
      · exact absurd hab h
      · subst hab
        subst h
        simp [strictEq] at hs

end Val

namespace Obj

theorem spread_empty (o : Obj) : Obj.empty.spread o = o := by
  funext k
  simp only [spread, empty]
  cases o k <;> rfl

end Obj

/-! ### Rounding to the nearest double -/

namespace Double

theorem roundHalfEven_intCast (k : ℤ) : roundHalfEven (k : ℚ) = k := by
  simp [roundHalfEven]

theorem roundHalfEven_le (y : ℚ) : ((roundHalfEven y : ℤ) : ℚ) ≤ y + 1 / 2 := by
  have h1 : ((⌊y⌋ : ℤ) : ℚ) ≤ y := Int.floor_le y
  unfold roundHalfEven
  split_ifs with ha hb hc
  · linarith
  · push_cast; linarith
  · linarith
  · push_cast
    have : y - ⌊y⌋ = 1 / 2 := le_antisymm (not_lt.mp hb) (not_lt.mp ha)
    linarith

theorem roundHalfEven_nonneg (y : ℚ) (hy : 0 ≤ y) : 0 ≤ roundHalfEven y := by
  have h1 : 0 ≤ ⌊y⌋ := Int.floor_nonneg.mpr hy
  unfold roundHalfEven
  split_ifs <;> omega

theorem ulp_pos (x : ℚ) : 0 < ulp x := by
  unfold ulp
  positivity

theorem nearest_nonneg (x : ℚ) (hx : 0 ≤ x) : 0 ≤ nearest x := by
  unfold nearest
  split_ifs with h0
  · exact le_refl 0
  · have hq : 0 ≤ x / ulp x := div_nonneg hx (ulp_pos x).le
    have hr : (0 : ℚ) ≤ (roundHalfEven (x / ulp x) : ℤ) := by
      exact_mod_cast roundHalfEven_nonneg _ hq
    exact mul_nonneg hr (ulp_pos x).le

theorem nearest_le (x : ℚ) : nearest x ≤ x + ulp x / 2 := by
  unfold nearest
  split_ifs with h0
  · subst h0
    have := ulp_pos 0
    linarith
  · have hu := ulp_pos x
    have h := roundHalfEven_le (x / ulp x)
    calc ((roundHalfEven (x / ulp x) : ℤ) : ℚ) * ulp x
        ≤ (x / ulp x + 1 / 2) * ulp x := mul_le_mul_of_nonneg_right h hu.le
      _ = x + ulp x / 2 := by field_simp; ring

theorem log_lt_of_lt_zpow (x : ℚ) (hx : 0 < x) (k : ℤ) (h : x < 2 ^ k) : Int.log 2 x < k := by
  have := (Int.lt_zpow_iff_log_lt (R := ℚ) (b := 2) (by norm_num) hx).mp (by simpa using h)
  exact this

theorem le_log_of_zpow_le (x : ℚ) (hx : 0 < x) (k : ℤ) (h : 2 ^ k ≤ x) : k ≤ Int.log 2 x := by
  have := (Int.zpow_le_iff_le_log (R := ℚ) (b := 2) (by norm_num) hx).mp (by simpa using h)
  exact this

theorem log_eq (x : ℚ) (hx : 0 < x) (k : ℤ) (h1 : 2 ^ k ≤ x) (h2 : x < 2 ^ (k + 1)) :
    Int.log 2 x = k := by
  have a := le_log_of_zpow_le x hx k h1
  have b := log_lt_of_lt_zpow x hx (k + 1) h2
  omega

theorem ulp_le (x : ℚ) (hx : 0 < x) (k : ℤ) (hk : -1022 ≤ k) (h : x < 2 ^ (k + 1)) :
    ulp x ≤ 2 ^ (k - 52) := by
  unfold ulp
  apply zpow_le_zpow_right₀ (by norm_num)
  have hl : Int.log 2 |x| < k + 1 := by
    rw [abs_of_pos hx]
    exact log_lt_of_lt_zpow x hx (k + 1) h
  have : max (Int.log 2 |x|) (-1022) ≤ k := max_le (by omega) hk
  omega

theorem roundHalfEven_tie_even (k : ℤ) (hk : k % 2 = 0) :
    roundHalfEven ((k : ℚ) + 1 / 2) = k := by
  have hf : ⌊(k : ℚ) + 1 / 2⌋ = k := by
    rw [Int.floor_eq_iff]
    constructor <;> linarith
  unfold roundHalfEven
  rw [hf]
  have hd : (k : ℚ) + 1 / 2 - k = 1 / 2 := by ring
  rw [hd]
  simp [hk]

/-- An integer of magnitude up to 2^53 is a double. -/
theorem nearest_intCast (m : ℤ) (hm : |m| ≤ 2 ^ 53) : nearest (m : ℚ) = m := by
  unfold nearest
  split_ifs with h0
  · exact h0.symm
  · have hm0 : m ≠ 0 := by exact_mod_cast h0
    have habs : (0 : ℚ) < |(m : ℚ)| := abs_pos.mpr h0
    have hone : (1 : ℚ) ≤ |(m : ℚ)| := by
      have : (1 : ℤ) ≤ |m| := Int.one_le_abs hm0
      exact_mod_cast this
    have hub : |(m : ℚ)| ≤ 2 ^ 53 := by exact_mod_cast hm
    have hL0 : 0 ≤ Int.log 2 |(m : ℚ)| :=
      le_log_of_zpow_le _ habs 0 (by simpa using hone)
    have hL1 : Int.log 2 |(m : ℚ)| < 54 :=
      log_lt_of_lt_zpow _ habs 54 (lt_of_le_of_lt hub (by norm_num))
    have hpow : (2 : ℚ) ^ (Int.log 2 |(m : ℚ)|) ≤ |(m : ℚ)| := by
      have := Int.zpow_log_le_self (R := ℚ) (b := 2) (by norm_num) habs
      simpa using this
    have hulp : ulp (m : ℚ) = 2 ^ (Int.log 2 |(m : ℚ)| - 52) := by
      unfold ulp
      rw [max_eq_left (by omega)]
    rw [hulp]
    generalize Int.log 2 |(m : ℚ)| = L at hL0 hL1 hpow
    by_cases hL : L ≤ 52
    · obtain ⟨n, hn⟩ : ∃ n : ℕ, (52 : ℤ) - L = n := ⟨(52 - L).toNat, by omega⟩
      have hexp : L - 52 = -(n : ℤ) := by omega
      rw [hexp, zpow_neg, zpow_natCast]
      have hq : (m : ℚ) / ((2 : ℚ) ^ n)⁻¹ = ((m * 2 ^ n : ℤ) : ℚ) := by
        push_cast
        field_simp
      rw [hq, roundHalfEven_intCast]
      push_cast
      field_simp
    · have hL53 : L = 53 := by omega
      subst hL53
      have habs2 : |(m : ℚ)| = 2 ^ 53 := by
        apply le_antisymm hub
        have h53 : (2 : ℚ) ^ (53 : ℤ) = 2 ^ (53 : ℕ) := by norm_num
        rw [← h53]
        exact hpow
      have hmabs : |m| = 2 ^ 53 := by exact_mod_cast habs2
      have hexp : ((53 : ℤ) - 52) = 1 := by norm_num
      rw [hexp, zpow_one]
      rcases abs_eq (by norm_num : (0 : ℤ) ≤ 2 ^ 53) |>.mp hmabs with h | h
      · subst h
        have hq : (((2 ^ 53 : ℤ) : ℚ)) / 2 = (((2 ^ 52 : ℤ)) : ℚ) := by norm_num
        rw [hq, roundHalfEven_intCast]
        norm_num
      · subst h
        have hq : (((-2 ^ 53 : ℤ) : ℚ)) / 2 = (((-2 ^ 52 : ℤ)) : ℚ) := by norm_num
        rw [hq, roundHalfEven_intCast]
        norm_num

/-- The sum 2^53 + 1 is no double: it lies halfway between 2^53 and 2^53 + 2 and goes
to 2^53, whose significand is even. -/
theorem nearest_two_pow_53_add_one : nearest (2 ^ 53 + 1) = 2 ^ 53 := by
  have hx : (0 : ℚ) < 2 ^ 53 + 1 := by norm_num
  have hlog : Int.log 2 |(2 ^ 53 + 1 : ℚ)| = 53 := by
    rw [abs_of_pos hx]
    exact log_eq _ hx 53 (by norm_num) (by norm_num)
  have hulp : ulp (2 ^ 53 + 1 : ℚ) = 2 := by
    unfold ulp
    rw [hlog]
    norm_num
  unfold nearest
  rw [if_neg hx.ne', hulp]
  have hq : (2 ^ 53 + 1 : ℚ) / 2 = ((2 ^ 52 : ℤ) : ℚ) + 1 / 2 := by norm_num
  rw [hq, roundHalfEven_tie_even _ (by norm_num)]
  norm_num

/-- The largest double below 1 is 1 - 2^-53. -/
theorem isDouble_lt_one (r : ℚ) (hd : isDouble r) (h1 : r < 1) : r ≤ 1 - 1 / 2 ^ 53 := by
  by_cases hhalf : r < 1 / 2
  · have : (1 : ℚ) / 2 ≤ 1 - 1 / 2 ^ 53 := by norm_num
    linarith
  · have hr : (1 : ℚ) / 2 ≤ r := not_lt.mp hhalf
    have hpos : (0 : ℚ) < r := by linarith
    have hlog : Int.log 2 |r| = -1 := by
      rw [abs_of_pos hpos]
      exact log_eq r hpos (-1) (by norm_num; linarith) (by norm_num; linarith)
    have hulp : ulp r = 1 / 2 ^ 53 := by
      unfold ulp
      rw [hlog]
      norm_num
    unfold isDouble nearest at hd
    rw [if_neg hpos.ne', hulp] at hd
    have hk : ((roundHalfEven (r / (1 / 2 ^ 53)) : ℤ) : ℚ) < 2 ^ 53 := by
      by_contra hcon
      have hge : (2 : ℚ) ^ 53 ≤ (roundHalfEven (r / (1 / 2 ^ 53)) : ℤ) := not_lt.mp hcon
      have : (1 : ℚ) ≤ (roundHalfEven (r / (1 / 2 ^ 53)) : ℤ) * (1 / 2 ^ 53) := by
        calc (1 : ℚ) = 2 ^ 53 * (1 / 2 ^ 53) := by norm_num
          _ ≤ (roundHalfEven (r / (1 / 2 ^ 53)) : ℤ) * (1 / 2 ^ 53) :=
            mul_le_mul_of_nonneg_right hge (by norm_num)
      linarith
    have hk2 : roundHalfEven (r / (1 / 2 ^ 53)) ≤ 2 ^ 53 - 1 := by
      have : roundHalfEven (r / (1 / 2 ^ 53)) < 2 ^ 53 := by exact_mod_cast hk
      omega
    have hk3 : ((roundHalfEven (r / (1 / 2 ^ 53)) : ℤ) : ℚ) ≤ 2 ^ 53 - 1 := by
      exact_mod_cast hk2
    calc r = (roundHalfEven (r / (1 / 2 ^ 53)) : ℤ) * (1 / 2 ^ 53) := hd.symm
      _ ≤ (2 ^ 53 - 1) * (1 / 2 ^ 53) := mul_le_mul_of_nonneg_right hk3 (by norm_num)
      _ = 1 - 1 / 2 ^ 53 := by norm_num

/-- The double product of a draw in [0, 1) and 1000 is below 1000. -/
theorem nearest_mul_thousand (r : ℚ) (hd : isDouble r) (h0 : 0 ≤ r) (h1 : r < 1) :
    0 ≤ nearest (r * 1000) ∧ nearest (r * 1000) < 1000 := by
  refine ⟨nearest_nonneg _ (by positivity), ?_⟩
  have hr := isDouble_lt_one r hd h1
  by_cases hx0 : r * 1000 = 0
  · rw [hx0]
    unfold nearest
    simp
  · have hx : 0 < r * 1000 := lt_of_le_of_ne (by positivity) (Ne.symm hx0)
    have hlt : r * 1000 < 2 ^ ((9 : ℤ) + 1) := by
      have : r * 1000 < 1000 := by linarith
      have h2 : (2 : ℚ) ^ ((9 : ℤ) + 1) = 1024 := by norm_num
      rw [h2]
      linarith
    have hu := ulp_le (r * 1000) hx 9 (by norm_num) hlt
    have hu2 : ((2 : ℚ) ^ ((9 : ℤ) - 52)) = 1 / 2 ^ 43 := by
      have : ((9 : ℤ) - 52) = -43 := by norm_num
      rw [this, zpow_neg]
      norm_num
    rw [hu2] at hu
    have hn := nearest_le (r * 1000)
    have hbound : r * 1000 ≤ 1000 - 1000 / 2 ^ 53 := by
      have := mul_le_mul_of_nonneg_right hr (by norm_num : (0 : ℚ) ≤ 1000)
      calc r * 1000 ≤ (1 - 1 / 2 ^ 53) * 1000 := this
        _ = 1000 - 1000 / 2 ^ 53 := by ring
    have hnum : (1000 : ℚ) - 1000 / 2 ^ 53 + (1 / 2 ^ 43) / 2 < 1000 := by norm_num
    linarith

/-- A rational within half a unit of an integer rounds to it. -/
theorem roundHalfEven_of_close (y : ℚ) (k : ℤ) (h1 : (k : ℚ) - 1 / 2 < y)
    (h2 : y < (k : ℚ) + 1 / 2) : roundHalfEven y = k := by
  by_cases hk : (k : ℚ) ≤ y
  · have hf : ⌊y⌋ = k := by
      rw [Int.floor_eq_iff]
      constructor <;> linarith
    unfold roundHalfEven
    rw [hf, if_pos (by linarith)]
  · have hf : ⌊y⌋ = k - 1 := by
      rw [Int.floor_eq_iff]
      push_cast
      constructor <;> linarith
    unfold roundHalfEven
    rw [hf]
    push_cast
    rw [if_neg (by linarith), if_pos (by linarith)]
    ring

/-- One half is a double. -/
theorem isDouble_half : isDouble (1 / 2) := by
  have hlog : Int.log 2 |(1 / 2 : ℚ)| = -1 := by
    rw [abs_of_pos (by norm_num)]
    exact log_eq _ (by norm_num) (-1) (by norm_num) (by norm_num)
  have hulp : ulp (1 / 2 : ℚ) = 1 / 2 ^ 53 := by
    unfold ulp
    rw [hlog]
    norm_num
  unfold isDouble nearest
  rw [if_neg (by norm_num), hulp]
  have hq : (1 / 2 : ℚ) / (1 / 2 ^ 53) = ((2 ^ 52 : ℤ) : ℚ) := by norm_num
  rw [hq, roundHalfEven_intCast]
  norm_num

/-- The double nearest to 0.009, which is 5188146770730811 / 2^59. -/
theorem isDouble_nine_thousandths : isDouble (5188146770730811 / 2 ^ 59) := by
  have hlog : Int.log 2 |(5188146770730811 / 2 ^ 59 : ℚ)| = -7 := by
    rw [abs_of_pos (by norm_num)]
    exact log_eq _ (by norm_num) (-7) (by norm_num) (by norm_num)
  have hulp : ulp (5188146770730811 / 2 ^ 59 : ℚ) = 1 / 2 ^ 59 := by
    unfold ulp
    rw [hlog]
    norm_num
  unfold isDouble nearest
  rw [if_neg (by norm_num), hulp]
  have hq : (5188146770730811 / 2 ^ 59 : ℚ) / (1 / 2 ^ 59) = ((5188146770730811 : ℤ) : ℚ) := by
    norm_num
  rw [hq, roundHalfEven_intCast]
  norm_num

/-- The double product of 0.009 and 1000 is 9, although the exact product is below 9. -/
theorem nearest_nine_thousandths_mul :
    nearest (5188146770730811 / 2 ^ 59 * 1000) = 9
      ∧ ⌊(5188146770730811 / 2 ^ 59 * 1000 : ℚ)⌋ = 8 := by
  constructor
  · have hlog : Int.log 2 |(5188146770730811 / 2 ^ 59 * 1000 : ℚ)| = 3 := by
      rw [abs_of_pos (by norm_num)]
      exact log_eq _ (by norm_num) 3 (by norm_num) (by norm_num)
    have hulp : ulp (5188146770730811 / 2 ^ 59 * 1000 : ℚ) = 1 / 2 ^ 49 := by
      unfold ulp
      rw [hlog]
      norm_num
    unfold nearest
    rw [if_neg (by norm_num), hulp]
    rw [roundHalfEven_of_close _ (9 * 2 ^ 49) (by norm_num) (by norm_num)]
    norm_num
  · rw [Int.floor_eq_iff]
    constructor <;> norm_num

end Double

/-! ### `updateTicker`, `updateTickers`, `getTicker` -/

namespace MarketDataStore

theorem snapshotOrEmpty_get (state : State) (symbol : String) (exchange : Option String)
    (f : String) :
    (snapshotOrEmpty state.tickerData (symbol ++ ":" ++ exchangeOrNSE exchange)).get f
      = storedField state symbol exchange f := by
  unfold snapshotOrEmpty storedField getTicker
  cases lookup state.tickerData (symbol ++ ":" ++ exchangeOrNSE exchange) <;> rfl

theorem updateTickerReducer_unchanged (state : State) (symbol : String)
    (exchange : Option String) (data : Obj) (now : Int)
    (hltp : (storedField state symbol exchange "ltp").strictEq (data.get "ltp") = true)
    (hvol : (storedField state symbol exchange "volume").strictEq (data.get "volume") = true) :
    updateTickerReducer symbol exchange data now state = Reduced.same := by
  simp only [updateTickerReducer, snapshotOrEmpty_get, hltp, hvol, Bool.and_self, if_true]

theorem updateTicker_of_same (state : State) (symbol : String)
    (exchange : Option String) (data : Obj) (now : Int)
    (h : updateTickerReducer symbol exchange data now state = Reduced.same) :
    updateTicker symbol exchange data now state = state := by
  simp [updateTicker, h, zset]

/-- C1, as amended: when the stored snapshot has the same ltp and the same volume as
`data`, neither of them `NaN`, an absent snapshot having neither field,
`updateTicker` hands the state reference back: nobody is notified and the state,
with every snapshot and every `lastUpdated` in it, is the prior state. -/
theorem updateTicker_unchanged_is_noop (state : State) (symbol : String)
    (exchange : Option String) (data : Obj) (now : Int)
    (hltp : storedField state symbol exchange "ltp" = data.get "ltp")
    (hvol : storedField state symbol exchange "volume" = data.get "volume")
    (hltpNaN : data.get "ltp" ≠ Val.nan) (hvolNaN : data.get "volume" ≠ Val.nan) :
    updateTickerReducer symbol exchange data now state = Reduced.same
      ∧ updateTicker symbol exchange data now state = state :=
  ⟨updateTickerReducer_unchanged state symbol exchange data now
      (Val.strictEq_of_eq hltp hltpNaN) (Val.strictEq_of_eq hvol hvolNaN),
    updateTicker_of_same state symbol exchange data now
      (updateTickerReducer_unchanged state symbol exchange data now
        (Val.strictEq_of_eq hltp hltpNaN) (Val.strictEq_of_eq hvol hvolNaN))⟩

theorem snapshotOrEmpty_own (state : State) (symbol : String) (exchange : Option String)
    (f : String) :
    (snapshotOrEmpty state.tickerData (symbol ++ ":" ++ exchangeOrNSE exchange)) f
      = storedOwn state symbol exchange f := by
  unfold snapshotOrEmpty storedOwn getTicker
  cases lookup state.tickerData (symbol ++ ":" ++ exchangeOrNSE exchange) <;> rfl

/-- The snapshot `{ ...oldData, ...data, lastUpdated: now }` read property by property. -/
theorem merged_own (old data : Obj) (now : Int) (f : String) :
    (((Obj.empty.spread old).spread data).set "lastUpdated" (.num now)) f
      = if f = "lastUpdated" then some (.num now) else
          match data f with
          | some v => some v
          | none => old f := by
  rw [Obj.spread_empty]
  simp only [Obj.set, Obj.spread]

theorem updateTickerReducer_changed (state : State) (symbol : String)
    (exchange : Option String) (data : Obj) (now : Int)
    (hchg : (storedField state symbol exchange "ltp").strictEq (data.get "ltp") = false
      ∨ (storedField state symbol exchange "volume").strictEq (data.get "volume") = false) :
    updateTickerReducer symbol exchange data now state
      = Reduced.patch (upsert state.tickerData (symbol ++ ":" ++ exchangeOrNSE exchange)
          (((Obj.empty.spread
            (snapshotOrEmpty state.tickerData (symbol ++ ":" ++ exchangeOrNSE exchange))).spread
              data).set "lastUpdated" (.num now))) := by
  simp only [updateTickerReducer, snapshotOrEmpty_get]
  rcases hchg with h | h <;> simp [h]

/-- C2: when `data.ltp` or `data.volume` differs (`!==`) from the stored snapshot,
`updateTicker` leaves under the key a snapshot that has every property of `data`
with the value of `data`, every property of the old snapshot that `data` does not
mention with its old value, and `lastUpdated = now`, also when `data` has a
`lastUpdated` of its own; the snapshots under all other keys are as before. -/
theorem updateTicker_changed_merges (state : State) (symbol : String)
    (exchange : Option String) (data : Obj) (now : Int)
    (hchg : (storedField state symbol exchange "ltp").strictEq (data.get "ltp") = false
      ∨ (storedField state symbol exchange "volume").strictEq (data.get "volume") = false) :
    ∃ snap : Obj,
      getTicker (updateTicker symbol exchange data now state) symbol exchange = some snap
      ∧ (∀ f v, f ≠ "lastUpdated" → data f = some v → snap f = some v)
      ∧ (∀ f, f ≠ "lastUpdated" → data f = none →
          snap f = storedOwn state symbol exchange f)
      ∧ snap "lastUpdated" = some (Val.num now)
      ∧ (∀ key2, key2 ≠ symbol ++ ":" ++ exchangeOrNSE exchange →
          lookup (updateTicker symbol exchange data now state).tickerData key2
            = lookup state.tickerData key2) := by
  refine ⟨((Obj.empty.spread
      (snapshotOrEmpty state.tickerData (symbol ++ ":" ++ exchangeOrNSE exchange))).spread
        data).set "lastUpdated" (.num now), ?_, ?_, ?_, ?_, ?_⟩
  · simp only [updateTicker, updateTickerReducer_changed state symbol exchange data now hchg,
      zset, getTicker]
    exact lookup_upsert_self _ _ _
  · intro f v hf hv
    rw [merged_own]; simp [hf, hv]
  · intro f hf hv
    rw [merged_own, snapshotOrEmpty_own]; simp [hf, hv]
  · rw [merged_own]; simp
  · intro key2 hne
    simp only [updateTicker, updateTickerReducer_changed state symbol exchange data now hchg,
      zset]
    exact lookup_upsert_other _ _ _ _ hne

/-- After an accepted `updateTicker` the snapshot under the key has the value of
`data` at every property of `data` other than `lastUpdated`. -/
theorem storedField_after_change (state : State) (symbol : String)
    (exchange : Option String) (data : Obj) (now : Int) (f : String) (v : Val)
    (hchg : (storedField state symbol exchange "ltp").strictEq (data.get "ltp") = false
      ∨ (storedField state symbol exchange "volume").strictEq (data.get "volume") = false)
    (hf : f ≠ "lastUpdated") (hv : data f = some v) :
    storedField (updateTicker symbol exchange data now state) symbol exchange f = v := by
  simp only [storedField, getTicker, updateTicker,
    updateTickerReducer_changed state symbol exchange data now hchg, zset, lookup_upsert_self,
    Obj.get, merged_own]
  simp [hf, hv]

/-- C3, as amended: for `data` that has an ltp and a volume, neither of them `NaN`,
a second `updateTicker` with the same `data` hands the state reference back,
whatever the clock reads then: the state after two calls is the state after one. -/
theorem updateTicker_twice_same_data (state : State) (symbol : String)
    (exchange : Option String) (data : Obj) (now1 now2 : Int)
    (hltp : (data "ltp").isSome) (hvol : (data "volume").isSome)
    (hltpNaN : data.get "ltp" ≠ Val.nan) (hvolNaN : data.get "volume" ≠ Val.nan) :
    updateTickerReducer symbol exchange data now2
        (updateTicker symbol exchange data now1 state) = Reduced.same
      ∧ updateTicker symbol exchange data now2
          (updateTicker symbol exchange data now1 state)
        = updateTicker symbol exchange data now1 state := by
  have hsecond : updateTickerReducer symbol exchange data now2
      (updateTicker symbol exchange data now1 state) = Reduced.same := by
    by_cases hsame : (storedField state symbol exchange "ltp").strictEq (data.get "ltp") = true
        ∧ (storedField state symbol exchange "volume").strictEq (data.get "volume") = true
    · rw [updateTicker_of_same state symbol exchange data now1
        (updateTickerReducer_unchanged state symbol exchange data now1 hsame.1 hsame.2)]
      exact updateTickerReducer_unchanged state symbol exchange data now2 hsame.1 hsame.2
    · have hchg : (storedField state symbol exchange "ltp").strictEq (data.get "ltp") = false
          ∨ (storedField state symbol exchange "volume").strictEq (data.get "volume")
              = false := by
        by_contra hcon
        push_neg at hcon
        exact hsame ⟨by simpa using hcon.1, by simpa using hcon.2⟩
      have hfield : ∀ f, f ≠ "lastUpdated" → (data f).isSome → data.get f ≠ Val.nan →
          (storedField (updateTicker symbol exchange data now1 state) symbol exchange
            f).strictEq (data.get f) = true := by
        intro f hf hsome hnan
        obtain ⟨v, hv⟩ := Option.isSome_iff_exists.mp hsome
        have hget : data.get f = v := by simp [Obj.get, hv]
        rw [storedField_after_change state symbol exchange data now1 f v hchg hf hv, hget]
        exact Val.strictEq_self _ (hget ▸ hnan)
      exact updateTickerReducer_unchanged _ symbol exchange data now2
        (hfield "ltp" (by decide) hltp hltpNaN) (hfield "volume" (by decide) hvol hvolNaN)
  exact ⟨hsecond, updateTicker_of_same _ symbol exchange data now2 hsecond⟩

theorem applyEntry_eq (now : Int) (u : TickUpdate) (td : TickerData) (b : Bool) :
    applyEntry now u (td, b)
      = if entryChanges td u then (writeEntry td (u, now), true) else (td, b) := rfl

theorem forEachEntry_flag_true (clock : Nat → Int) (us : List TickUpdate) :
    ∀ (i : Nat) (td : TickerData), (forEachEntry clock i us (td, true)).2 = true := by
  induction us with
  | nil => intro i td; rfl
  | cons u rest ih =>
    intro i td
    simp only [forEachEntry, applyEntry_eq]
    split
    · exact ih _ _
    · exact ih _ _

/-- The copy that the loop leaves is the prior object with the write of every
changed entry applied in call order. -/
theorem forEachEntry_fst (clock : Nat → Int) (us : List TickUpdate) :
    ∀ (i : Nat) (td : TickerData) (b : Bool),
      (forEachEntry clock i us (td, b)).1
        = (changedEntries clock i us td).foldl writeEntry td := by
  induction us with
  | nil => intro i td b; rfl
  | cons u rest ih =>
    intro i td b
    simp only [forEachEntry, applyEntry_eq, changedEntries]
    split
    · rw [ih]; rfl
    · rw [ih]

/-- The flag `hasChanges` after the loop says whether some entry changed. -/
theorem forEachEntry_flag (clock : Nat → Int) (us : List TickUpdate) :
    ∀ (i : Nat) (td : TickerData),
      (forEachEntry clock i us (td, false)).2 = !(changedEntries clock i us td).isEmpty := by
  induction us with
  | nil => intro i td; rfl
  | cons u rest ih =>
    intro i td
    simp only [forEachEntry, applyEntry_eq, changedEntries]
    split
    · rw [forEachEntry_flag_true]; rfl
    · exact ih _ _

theorem storedLtp_eq_storedField (state : State) (u : TickUpdate) :
    storedLtp state.tickerData (instrumentKey u.symbol u.exchange)
      = storedField state u.symbol u.exchange "ltp" := by
  unfold storedLtp storedField getTicker instrumentKey
  cases lookup state.tickerData (u.symbol ++ ":" ++ exchangeOrNSE u.exchange) <;> rfl

/-- No entry passes the test against `td`: the batch has no changed entry. -/
theorem changedEntries_eq_nil (clock : Nat → Int) (us : List TickUpdate) (td : TickerData)
    (h : ∀ u ∈ us, entryChanges td u = false) :
    ∀ i, changedEntries clock i us td = [] := by
  induction us with
  | nil => intro i; rfl
  | cons u rest ih =>
    intro i
    have hu := h u (List.mem_cons_self _ _)
    simp only [changedEntries, hu]
    exact ih (fun v hv => h v (List.mem_cons_of_mem _ hv)) _

/-- Some entry passes the test against `td`: the batch has a changed entry. -/
theorem changedEntries_ne_nil (clock : Nat → Int) (us : List TickUpdate) (td : TickerData)
    (h : ∃ u ∈ us, entryChanges td u = true) :
    ∀ i, changedEntries clock i us td ≠ [] := by
  induction us with
  | nil => obtain ⟨u, hu, -⟩ := h; simp at hu
  | cons u rest ih =>
    intro i
    simp only [changedEntries]
    by_cases hu : entryChanges td u = true
    · simp [hu]
    · simp only [hu]
      obtain ⟨v, hv, hvc⟩ := h
      rcases List.mem_cons.mp hv with rfl | hv2
      · exact absurd hvc hu
      · exact ih ⟨v, hv2, hvc⟩ _

/-- A property that a changed entry wrote stays in the copy through the later
writes, as long as no later write under the same key carries that property. -/
theorem foldl_writeEntry_keeps (post : List (TickUpdate × Int)) (key f : String) (v : Val)
    (hf : f ≠ "lastUpdated")
    (hpost : ∀ c ∈ post, instrumentKey c.1.symbol c.1.exchange = key → c.1.data f = none) :
    ∀ td : TickerData, (∃ snap, lookup td key = some snap ∧ snap f = some v) →
      ∃ snap, lookup (post.foldl writeEntry td) key = some snap ∧ snap f = some v := by
  induction post with
  | nil => intro td h; exact h
  | cons c rest ih =>
    intro td h
    simp only [List.foldl_cons]
    apply ih (fun c2 hc2 => hpost c2 (List.mem_cons_of_mem _ hc2))
    obtain ⟨snap, hl, hs⟩ := h
    by_cases hk : instrumentKey c.1.symbol c.1.exchange = key
    · have hc := hpost c (List.mem_cons_self _ _) hk
      subst hk
      refine ⟨_, lookup_upsert_self _ _ _, ?_⟩
      rw [merged_own]
      simp [hf, hc, snapshotOrEmpty, hl, hs]
    · refine ⟨snap, ?_, hs⟩
      simp only [writeEntry]
      rw [lookup_upsert_other _ _ _ _ (fun e => hk e.symm)]
      exact hl

/-- C4, as amended: a batch (the empty one included) in which every entry has the
ltp that is stored under its key, and no entry has the ltp `NaN`, is a complete
no-op: the reducer hands the state reference back. A batch with an entry whose ltp
differs from the stored one, or is `NaN`, yields one partial state; its `tickerData`
is the prior one with the write of every changed entry applied in call order, so
that each property of a changed entry is in the snapshot under its key unless a
later changed entry of the same key carries that property too. -/
theorem updateTickers_noop_or_combined (state : State) (updates : List TickUpdate)
    (clock : Nat → Int) :
    ((∀ u ∈ updates,
        storedField state u.symbol u.exchange "ltp" = u.data.get "ltp"
          ∧ u.data.get "ltp" ≠ Val.nan) →
      updateTickersReducer updates clock state = Reduced.same
        ∧ updateTickers updates clock state = state)
    ∧ ((∃ u ∈ updates,
        storedField state u.symbol u.exchange "ltp" ≠ u.data.get "ltp"
          ∨ u.data.get "ltp" = Val.nan) →
      changedEntries clock 0 updates state.tickerData ≠ []
        ∧ updateTickersReducer updates clock state
            = Reduced.patch
                ((changedEntries clock 0 updates state.tickerData).foldl writeEntry
                  state.tickerData)
        ∧ ∀ pre c post, changedEntries clock 0 updates state.tickerData = pre ++ c :: post →
            ∀ f v, f ≠ "lastUpdated" → c.1.data f = some v →
              (∀ c2 ∈ post, instrumentKey c2.1.symbol c2.1.exchange
                  = instrumentKey c.1.symbol c.1.exchange → c2.1.data f = none) →
              ∃ snap, getTicker (updateTickers updates clock state) c.1.symbol c.1.exchange
                  = some snap ∧ snap f = some v) := by
  constructor
  · intro h
    have hnil : changedEntries clock 0 updates state.tickerData = [] := by
      apply changedEntries_eq_nil
      intro u hu
      have hs := Val.strictEq_of_eq (h u hu).1 (h u hu).2
      simp [entryChanges, storedLtp_eq_storedField, Val.strictNe, hs]
    have hred : updateTickersReducer updates clock state = Reduced.same := by
      simp [updateTickersReducer, forEachEntry_flag, hnil]
    exact ⟨hred, by simp [updateTickers, hred, zset]⟩
  · intro h
    have hne : changedEntries clock 0 updates state.tickerData ≠ [] := by
      apply changedEntries_ne_nil
      obtain ⟨u, hu, hc⟩ := h
      have hs := (Val.strictEq_eq_false_iff _ _).mpr hc
      exact ⟨u, hu, by simp [entryChanges, storedLtp_eq_storedField, Val.strictNe, hs]⟩
    have hred : updateTickersReducer updates clock state
        = Reduced.patch ((changedEntries clock 0 updates state.tickerData).foldl writeEntry
            state.tickerData) := by
      simp only [updateTickersReducer, forEachEntry_flag, forEachEntry_fst]
      cases hcs : changedEntries clock 0 updates state.tickerData with
      | nil => exact absurd hcs hne
      | cons c cs => rfl
    refine ⟨hne, hred, ?_⟩
    intro pre c post hsplit f v hf hv hpost
    simp only [getTicker, updateTickers, hred, zset, hsplit, List.foldl_append, List.foldl_cons]
    apply foldl_writeEntry_keeps post (instrumentKey c.1.symbol c.1.exchange) f v hf hpost
    refine ⟨_, lookup_upsert_self _ _ _, ?_⟩
    rw [merged_own]
    simp [hf, hv]

theorem lastWithKey_eq_none (us : List TickUpdate) (key : String) :
    lastWithKey us key = none ↔ ∀ u ∈ us, instrumentKey u.symbol u.exchange ≠ key := by
  induction us with
  | nil => simp [lastWithKey]
  | cons u rest ih =>
    simp only [lastWithKey, List.mem_cons, forall_eq_or_imp]
    cases h : lastWithKey rest key with
    | some v =>
      constructor
      · intro hcon; cases hcon
      · intro hall
        exact absurd (ih.mpr hall.2) (by simp [h])
    | none =>
      have hrest := ih.mp h
      by_cases hk : instrumentKey u.symbol u.exchange = key
      · simp [hk]
      · simp only [hk, if_false, true_iff]
        exact ⟨hk, hrest⟩

theorem lastWithKey_mem (us : List TickUpdate) (key : String) (ul : TickUpdate)
    (h : lastWithKey us key = some ul) :
    ul ∈ us ∧ instrumentKey ul.symbol ul.exchange = key := by
  induction us with
  | nil => simp [lastWithKey] at h
  | cons u rest ih =>
    simp only [lastWithKey] at h
    cases hr : lastWithKey rest key with
    | some v =>
      rw [hr] at h
      simp only [Option.some.injEq] at h
      subst h
      exact ⟨List.mem_cons_of_mem _ (ih hr).1, (ih hr).2⟩
    | none =>
      rw [hr] at h
      by_cases hk : instrumentKey u.symbol u.exchange = key
      · simp only [hk, if_true, Option.some.injEq] at h
        subst h
        exact ⟨List.mem_cons_self _ _, hk⟩
      · simp [hk] at h

/-- The loop leaves alone every key that no entry of the batch forms. -/
theorem forEachEntry_lookup_other (clock : Nat → Int) (us : List TickUpdate) (key : String)
    (h : ∀ u ∈ us, instrumentKey u.symbol u.exchange ≠ key) :
    ∀ (i : Nat) (td : TickerData) (b : Bool),
      lookup (forEachEntry clock i us (td, b)).1 key = lookup td key := by
  induction us with
  | nil => intro i td b; rfl
  | cons u rest ih =>
    intro i td b
    have hu := h u (List.mem_cons_self _ _)
    have hrest := ih (fun v hv => h v (List.mem_cons_of_mem _ hv))
    simp only [forEachEntry, applyEntry_eq]
    split
    · rw [hrest]
      exact lookup_upsert_other _ _ _ _ (fun e => hu e.symm)
    · exact hrest _ _ _

theorem storedLtp_congr (td td2 : TickerData) (key : String)
    (h : lookup td key = lookup td2 key) : storedLtp td key = storedLtp td2 key := by
  simp only [storedLtp, h]

/-- After an entry that has an ltp is processed, the ltp under its key is the ltp of
the entry, whether the entry was written or suppressed. -/
theorem storedLtp_applyEntry (now : Int) (u : TickUpdate) (td : TickerData) (b : Bool)
    (hltp : (u.data "ltp").isSome) :
    storedLtp (applyEntry now u (td, b)).1 (instrumentKey u.symbol u.exchange)
      = u.data.get "ltp" := by
  rw [applyEntry_eq]
  by_cases hc : entryChanges td u = true
  · obtain ⟨v, hv⟩ := Option.isSome_iff_exists.mp hltp
    simp only [hc, if_true, storedLtp, writeEntry, lookup_upsert_self]
    simp only [Obj.get, merged_own, hv]
    simp
  · simp only [hc]
    have hc2 : (storedLtp td (instrumentKey u.symbol u.exchange)).strictEq
        (u.data.get "ltp") = true := by
      simpa [entryChanges, Val.strictNe] using hc
    exact Val.eq_of_strictEq hc2

theorem forEachEntry_last (clock : Nat → Int) (us : List TickUpdate) (key : String)
    (hltp : ∀ u ∈ us, (u.data "ltp").isSome) :
    ∀ (i : Nat) (acc : TickerData × Bool) (ul : TickUpdate), lastWithKey us key = some ul →
      storedLtp (forEachEntry clock i us acc).1 key = ul.data.get "ltp" := by
  induction us with
  | nil => intro i acc ul h; simp [lastWithKey] at h
  | cons u rest ih =>
    intro i acc ul h
    have hrest := ih (fun v hv => hltp v (List.mem_cons_of_mem _ hv))
    simp only [lastWithKey] at h
    simp only [forEachEntry]
    cases hr : lastWithKey rest key with
    | some v =>
      rw [hr] at h
      simp only [Option.some.injEq] at h
      subst h
      exact hrest _ _ _ hr
    | none =>
      rw [hr] at h
      by_cases hk : instrumentKey u.symbol u.exchange = key
      · simp only [hk, if_true, Option.some.injEq] at h
        subst h
        have hother := forEachEntry_lookup_other clock rest key
          ((lastWithKey_eq_none rest key).mp hr) (i + 1)
          (applyEntry (clock i) u acc).1 (applyEntry (clock i) u acc).2
        rw [storedLtp_congr _ _ _ hother, ← hk]
        exact storedLtp_applyEntry (clock i) u acc.1 acc.2 (hltp u (List.mem_cons_self _ _))
      · simp [hk] at h

/-- The `tickerData` after the action is the copy that the loop leaves, also when the
reducer hands the state reference back. -/
theorem updateTickers_tickerData (updates : List TickUpdate) (clock : Nat → Int)
    (state : State) :
    (updateTickers updates clock state).tickerData
      = (forEachEntry clock 0 updates (state.tickerData, false)).1 := by
  simp only [updateTickers, updateTickersReducer, forEachEntry_flag, forEachEntry_fst]
  cases hcs : changedEntries clock 0 updates state.tickerData with
  | nil => rfl
  | cons c cs => rfl

/-- C5: in a batch whose entries each carry an ltp value (an ltp that is not
`undefined`), after `updateTickers` every (symbol, exchange) of the batch has a
snapshot and its ltp is the ltp of the last entry of the batch with that key; the
snapshots under keys that the batch does not form are as before. -/
theorem updateTickers_last_ltp (state : State) (updates : List TickUpdate)
    (clock : Nat → Int) (hltp : ∀ u ∈ updates, u.data.get "ltp" ≠ Val.undefined) :
    (∀ u0 ∈ updates, ∃ ul ∈ updates,
        lastWithKey updates (instrumentKey u0.symbol u0.exchange) = some ul
        ∧ ∃ snap, getTicker (updateTickers updates clock state) u0.symbol u0.exchange
            = some snap ∧ snap.get "ltp" = ul.data.get "ltp")
    ∧ (∀ key, (∀ u ∈ updates, instrumentKey u.symbol u.exchange ≠ key) →
        lookup (updateTickers updates clock state).tickerData key
          = lookup state.tickerData key) := by
  have hsome : ∀ u ∈ updates, (u.data "ltp").isSome := by
    intro u hu
    have h := hltp u hu
    cases hd : u.data "ltp" with
    | none => simp [Obj.get, hd] at h
    | some v => rfl
  constructor
  · intro u0 hu0
    cases hl : lastWithKey updates (instrumentKey u0.symbol u0.exchange) with
    | none =>
      exact absurd rfl ((lastWithKey_eq_none updates _).mp hl u0 hu0)
    | some ul =>
      have hmem := lastWithKey_mem updates _ ul hl
      refine ⟨ul, hmem.1, rfl, ?_⟩
      have hlast := forEachEntry_last clock updates _ hsome 0 (state.tickerData, false) ul hl
      rw [← updateTickers_tickerData] at hlast
      have hne := hltp ul hmem.1
      rw [← hlast] at hne
      simp only [getTicker]
      simp only [storedLtp, instrumentKey] at hlast hne
      cases hlk : lookup (updateTickers updates clock state).tickerData
          (u0.symbol ++ ":" ++ exchangeOrNSE u0.exchange) with
      | none => rw [hlk] at hne; exact absurd rfl hne
      | some snap =>
        rw [hlk] at hlast
        exact ⟨snap, rfl, hlast⟩
  · intro key hkey
    rw [updateTickers_tickerData]
    exact forEachEntry_lookup_other clock updates key hkey 0 state.tickerData false

theorem snapshotOrEmpty_eq_getD (state : State) (symbol : String) (exchange : Option String) :
    snapshotOrEmpty state.tickerData (symbol ++ ":" ++ exchangeOrNSE exchange)
      = (getTicker state symbol exchange).getD Obj.empty := by
  unfold snapshotOrEmpty getTicker
  cases lookup state.tickerData (symbol ++ ":" ++ exchangeOrNSE exchange) <;> rfl

/-- C6 at its failing input: a tick that changes the volume only is written by
`updateTicker` and dropped by `updateTickers`, which hands the state back and leaves
the old volume under the key. -/
theorem updateTickers_drops_volume_change :
    (volumeTick.data "ltp").isSome = true ∧ (volumeTick.data "volume").isSome = true
    ∧ (storedField staleVolumeState "INFY" (some "NSE") "volume").strictEq
        (volumeTick.data.get "volume") = false
    ∧ storedField (updateTicker "INFY" (some "NSE") volumeTick.data 2 staleVolumeState)
        "INFY" (some "NSE") "volume" = Val.num 11
    ∧ updateTickersReducer [volumeTick] (fun _ => 2) staleVolumeState = Reduced.same
    ∧ storedField (updateTickers [volumeTick] (fun _ => 2) staleVolumeState)
        "INFY" (some "NSE") "volume" = Val.num 10 := by
  refine ⟨by decide, by decide, by decide, by decide, rfl, by decide⟩

theorem exchangeOrNSE_some (e : String) (he : e ≠ "") : exchangeOrNSE (some e) = e := by
  simp [exchangeOrNSE, he]

/-- An accepted `updateTicker` writes `{ ...oldData, ...data, lastUpdated: now }` under
the key of the call. -/
theorem updateTickerReducer_patch (state : State) (symbol : String)
    (exchange : Option String) (data : Obj) (now : Int) (td : TickerData)
    (h : updateTickerReducer symbol exchange data now state = Reduced.patch td) :
    td = upsert state.tickerData (symbol ++ ":" ++ exchangeOrNSE exchange)
      (((Obj.empty.spread
        ((lookup state.tickerData (symbol ++ ":" ++ exchangeOrNSE exchange)).getD
          Obj.empty)).spread data).set "lastUpdated" (.num now)) := by
  simp only [updateTickerReducer] at h
  split at h
  · cases h
  · simp only [Reduced.patch.injEq] at h
    rw [← h, snapshotOrEmpty_eq_getD]
    rfl

/-- An accepted one-entry `updateTickers` writes the same snapshot under the same
key. -/
theorem updateTickersReducer_single_patch (state : State) (symbol : String)
    (exchange : Option String) (data : Obj) (clock : Nat → Int) (td : TickerData)
    (h : updateTickersReducer [⟨symbol, exchange, data⟩] clock state = Reduced.patch td) :
    td = upsert state.tickerData (symbol ++ ":" ++ exchangeOrNSE exchange)
      (((Obj.empty.spread
        ((lookup state.tickerData (symbol ++ ":" ++ exchangeOrNSE exchange)).getD
          Obj.empty)).spread data).set "lastUpdated" (.num (clock 0))) := by
  simp only [updateTickersReducer, forEachEntry, applyEntry_eq] at h
  split at h
  · simp only [Bool.not_true, Bool.false_eq_true, if_false, Reduced.patch.injEq] at h
    rw [← h]
    simp only [writeEntry, instrumentKey, snapshotOrEmpty_eq_getD]
    rfl
  · simp at h

/-- C7: the two write paths and the read path form the key
`symbol + ":" + (exchange or "NSE")`: a write with the exchange absent is the write
with exchange "NSE", for `updateTicker` and for a one-entry `updateTickers`; so is
the read; after an accepted write to (symbol, exchange) by either path
`getTicker(symbol, exchange)` is the snapshot that was written. Spelled out: for an
exchange `e` that is not empty the read looks under `symbol + ":" + e` and an
accepted write by either path stores `{ ...old, ...data, lastUpdated }` under that
key, `old` being the snapshot under that key; for an absent or empty exchange the
key is `symbol + ":" + "NSE"`. -/
theorem key_formation_shared (state : State) (symbol : String) (data : Obj) :
    (∀ now, updateTicker symbol none data now state
        = updateTicker symbol (some "NSE") data now state)
    ∧ (∀ clock, updateTickers [⟨symbol, none, data⟩] clock state
        = updateTickers [⟨symbol, some "NSE", data⟩] clock state)
    ∧ getTicker state symbol none = getTicker state symbol (some "NSE")
    ∧ (∀ exchange, getTicker state symbol exchange
        = lookup state.tickerData (instrumentKey symbol exchange))
    ∧ (∀ exchange now td, updateTickerReducer symbol exchange data now state = Reduced.patch td →
        td = upsert state.tickerData (instrumentKey symbol exchange)
            (writtenSnapshot state symbol exchange data now)
        ∧ getTicker (updateTicker symbol exchange data now state) symbol exchange
          = some (writtenSnapshot state symbol exchange data now))
    ∧ (∀ exchange clock td,
        updateTickersReducer [⟨symbol, exchange, data⟩] clock state = Reduced.patch td →
        td = upsert state.tickerData (instrumentKey symbol exchange)
            (writtenSnapshot state symbol exchange data (clock 0))
        ∧ getTicker (updateTickers [⟨symbol, exchange, data⟩] clock state) symbol exchange
          = some (writtenSnapshot state symbol exchange data (clock 0)))
    ∧ (∀ e : String, e ≠ "" →
        getTicker state symbol (some e) = lookup state.tickerData (symbol ++ ":" ++ e)
        ∧ (∀ now td, updateTickerReducer symbol (some e) data now state = Reduced.patch td →
            td = upsert state.tickerData (symbol ++ ":" ++ e)
              (((Obj.empty.spread
                ((lookup state.tickerData (symbol ++ ":" ++ e)).getD Obj.empty)).spread
                  data).set "lastUpdated" (.num now)))
        ∧ (∀ clock td,
            updateTickersReducer [⟨symbol, some e, data⟩] clock state = Reduced.patch td →
            td = upsert state.tickerData (symbol ++ ":" ++ e)
              (((Obj.empty.spread
                ((lookup state.tickerData (symbol ++ ":" ++ e)).getD Obj.empty)).spread
                  data).set "lastUpdated" (.num (clock 0)))))
    ∧ (∀ exchange : Option String, exchange = none ∨ exchange = some "" →
        getTicker state symbol exchange = lookup state.tickerData (symbol ++ ":" ++ "NSE")
        ∧ (∀ now td, updateTickerReducer symbol exchange data now state = Reduced.patch td →
            td = upsert state.tickerData (symbol ++ ":" ++ "NSE")
              (((Obj.empty.spread
                ((lookup state.tickerData (symbol ++ ":" ++ "NSE")).getD Obj.empty)).spread
                  data).set "lastUpdated" (.num now)))
        ∧ (∀ clock td,
            updateTickersReducer [⟨symbol, exchange, data⟩] clock state = Reduced.patch td →
            td = upsert state.tickerData (symbol ++ ":" ++ "NSE")
              (((Obj.empty.spread
                ((lookup state.tickerData (symbol ++ ":" ++ "NSE")).getD Obj.empty)).spread
                  data).set "lastUpdated" (.num (clock 0))))) := by
  refine ⟨fun _ => rfl, fun _ => rfl, rfl, fun _ => rfl, ?_, ?_, ?_, ?_⟩
  · intro exchange now td h
    have htd : td = upsert state.tickerData (instrumentKey symbol exchange)
        (writtenSnapshot state symbol exchange data now) :=
      updateTickerReducer_patch state symbol exchange data now td h
    refine ⟨htd, ?_⟩
    simp only [updateTicker, h, zset, getTicker, htd]
    exact lookup_upsert_self _ _ _
  · intro exchange clock td h
    have htd : td = upsert state.tickerData (instrumentKey symbol exchange)
        (writtenSnapshot state symbol exchange data (clock 0)) :=
      updateTickersReducer_single_patch state symbol exchange data clock td h
    refine ⟨htd, ?_⟩
    simp only [updateTickers, h, zset, getTicker, htd]
    exact lookup_upsert_self _ _ _
  · intro e he
    refine ⟨?_, ?_, ?_⟩
    · simp only [getTicker, exchangeOrNSE_some e he]
    · intro now td h
      have htd := updateTickerReducer_patch state symbol (some e) data now td h
      rw [exchangeOrNSE_some e he] at htd
      exact htd
    · intro clock td h
      have htd := updateTickersReducer_single_patch state symbol (some e) data clock td h
      rw [exchangeOrNSE_some e he] at htd
      exact htd
  · intro exchange hex
    have hkey : exchangeOrNSE exchange = "NSE" := by
      rcases hex with h | h <;> subst h <;> rfl
    refine ⟨?_, ?_, ?_⟩
    · simp only [getTicker, hkey]
    · intro now td h
      have htd := updateTickerReducer_patch state symbol exchange data now td h
      rw [hkey] at htd
      exact htd
    · intro clock td h
      have htd := updateTickersReducer_single_patch state symbol exchange data clock td h
      rw [hkey] at htd
      exact htd

end MarketDataStore

/-! ### `addIndicator`, `activeChart`, `toggleIndicatorVisibility` -/

namespace UseChart

theorem seedDefaults_apply (defs : List FieldDef) :
    ∀ (s : Obj) (k : String), seedDefaults defs s k
      = match lastDefault (carried defs) k with
        | some v => some v
        | none => s k := by
  induction defs with
  | nil => intro s k; rfl
  | cons d ds ih =>
    intro s k
    have hstep : seedDefaults (d :: ds) s
        = seedDefaults ds (if d.default.strictNe Val.undefined then s.set d.key d.default
            else s) := rfl
    rw [hstep, ih]
    by_cases hd : d.default.strictNe Val.undefined = true
    · have hc : carried (d :: ds) = (d.key, d.default) :: carried ds := by
        simp [carried, List.filter_cons, hd]
      rw [hc]
      simp only [hd, if_true, lastDefault, Obj.set]
      cases lastDefault (carried ds) k with
      | some w => rfl
      | none => by_cases hk : k = d.key <;> simp [hk]
    · have hc : carried (d :: ds) = carried ds := by
        simp [carried, List.filter_cons, hd]
      rw [hc]
      simp only [hd]
      rfl

theorem seedDefaults_append (a b : List FieldDef) (s : Obj) :
    seedDefaults (a ++ b) s = seedDefaults b (seedDefaults a s) := by
  simp [seedDefaults, List.foldl_append]

theorem defaultSettings_of_entry (indicatorConfigs : Catalog) (type : String)
    (c : IndicatorConfig) (h : indicatorConfigs type = some c) :
    defaultSettings indicatorConfigs type
      = seedDefaults ((c.inputs.getD []) ++ (c.style.getD [])) Obj.empty := by
  rw [seedDefaults_append]
  simp only [defaultSettings, h]
  cases c.inputs <;> cases c.style <;> rfl

/-- C9: the settings that `addIndicator` seeds are those of the specification: from
a catalog entry, exactly the declared input and style defaults (no key without a
default, a style over an input of the same key, no fallback table); without an
entry, the fallback rows of "sma", "ema" and "tpo" and nothing for another type.
The new indicator is `{ id, type, visible: true }` with these settings spread over
it, sent to the active chart. -/
theorem addIndicator_seeds_spec_settings (indicatorConfigs : Catalog) (activeChartId : Val)
    (type : String) (timestamp : Int) (random : ℚ) :
    defaultSettings indicatorConfigs type = specSettings indicatorConfigs type
    ∧ (addIndicator indicatorConfigs activeChartId type timestamp random).indicator
        = (Obj.ofList [("id", .str (type ++ "_" ++ toString timestamp ++ "_"
              ++ toString (salt random))),
            ("type", .str type), ("visible", .bool true)]).spread
          (specSettings indicatorConfigs type)
    ∧ (addIndicator indicatorConfigs activeChartId type timestamp random).chartId
        = activeChartId := by
  have hset : defaultSettings indicatorConfigs type = specSettings indicatorConfigs type := by
    cases hc : indicatorConfigs type with
    | some c =>
      rw [defaultSettings_of_entry indicatorConfigs type c hc]
      funext k
      rw [seedDefaults_apply]
      simp only [specSettings, hc, declaredDefaults, carried, Obj.empty]
      cases lastDefault (List.map (fun d => (d.key, d.default))
        (List.filter (fun d => d.default.strictNe Val.undefined)
          (c.inputs.getD [] ++ c.style.getD []))) k <;> rfl
    | none =>
      simp only [defaultSettings, specSettings, hc, objectAssign, Obj.spread_empty]
      by_cases h1 : type = "sma"
      · subst h1; simp [Obj.spread_empty]
      · by_cases h2 : type = "ema"
        · subst h2; simp [Obj.spread_empty]
        · by_cases h3 : type = "tpo"
          · subst h3; simp [Obj.spread_empty]
          · simp [h1, h2, h3]
  refine ⟨hset, ?_, rfl⟩
  simp only [addIndicator, hset]

theorem find?_updateFirst {α : Type} (p : α → Bool) (f : α → α)
    (hp : ∀ x, p x = true → p (f x) = true) (l : List α) :
    (updateFirst p f l).find? p = (l.find? p).map f := by
  induction l with
  | nil => rfl
  | cons x xs ih =>
    by_cases hx : p x = true
    · simp [updateFirst, hx, List.find?_cons, hp x hx]
    · simp [updateFirst, hx, List.find?_cons, ih]

theorem updateFirst_updateFirst {α : Type} (p : α → Bool) (f g : α → α)
    (hp : ∀ x, p x = true → p (f x) = true) (l : List α) :
    updateFirst p g (updateFirst p f l) = updateFirst p (fun x => g (f x)) l := by
  induction l with
  | nil => rfl
  | cons x xs ih =>
    by_cases hx : p x = true
    · simp [updateFirst, hx, hp x hx]
    · simp [updateFirst, hx, ih]

theorem updateFirst_fixed {α : Type} (p : α → Bool) (f : α → α) (l : List α)
    (hf : ∀ x, l.find? p = some x → f x = x) : updateFirst p f l = l := by
  induction l with
  | nil => rfl
  | cons x xs ih =>
    by_cases hx : p x = true
    · have := hf x (by simp [List.find?_cons, hx])
      simp [updateFirst, hx, this]
    · have hrest : ∀ y, xs.find? p = some y → f y = y := by
        intro y hy
        exact hf y (by simpa [List.find?_cons, hx] using hy)
      simp [updateFirst, hx, ih hrest]

theorem or_of_nonempty_str (s d : String) (h : s ≠ "") : (Val.str s).or (.str d) = .str s := by
  simp [Val.or, Val.truthy, h]

/-- C8, as stated, fails on a chart whose symbol is the empty string: the field is
there, and `currentSymbol` is the default and not the symbol of the chart. -/
theorem currentSymbol_blank_symbol :
    readField Chart.symbol (activeChart blankSymbolCharts (.num 1)) = .str ""
    ∧ readField Chart.symbol (activeChart blankSymbolCharts (.num 1)) ≠ Val.undefined
    ∧ currentSymbol blankSymbolCharts (.num 1) = .str "NIFTY 50"
    ∧ currentSymbol blankSymbolCharts (.num 1)
        ≠ readField Chart.symbol (activeChart blankSymbolCharts (.num 1)) := by
  decide

/-- C8, as amended: `activeChart` is the first chart whose id is (`===`) the active
id if there is one, otherwise the first chart of the list, otherwise the empty
object; `currentSymbol`, `currentExchange` and `currentInterval` are the symbol,
exchange and interval of that chart when they are non-empty strings, and 'NIFTY 50',
'NSE' and '1d' when the field is missing or the empty string, so all three are the
defaults when there is no chart. -/
theorem activeChart_and_current_fields (charts : List Chart) (activeChartId : Val) :
    (∀ pre c post, charts = pre ++ c :: post → c.id.strictEq activeChartId = true →
        (∀ d ∈ pre, d.id.strictEq activeChartId = false) →
        activeChart charts activeChartId = some c)
    ∧ ((∀ d ∈ charts, d.id.strictEq activeChartId = false) →
        activeChart charts activeChartId = charts.head?)
    ∧ (charts = [] → activeChart charts activeChartId = none)
    ∧ ((∀ s, s ≠ "" →
          readField Chart.symbol (activeChart charts activeChartId) = .str s →
          currentSymbol charts activeChartId = .str s)
        ∧ (readField Chart.symbol (activeChart charts activeChartId) = .undefined
            ∨ readField Chart.symbol (activeChart charts activeChartId) = .str "" →
          currentSymbol charts activeChartId = .str "NIFTY 50"))
    ∧ ((∀ s, s ≠ "" →
          readField Chart.exchange (activeChart charts activeChartId) = .str s →
          currentExchange charts activeChartId = .str s)
        ∧ (readField Chart.exchange (activeChart charts activeChartId) = .undefined
            ∨ readField Chart.exchange (activeChart charts activeChartId) = .str "" →
          currentExchange charts activeChartId = .str "NSE"))
    ∧ ((∀ s, s ≠ "" →
          readField Chart.interval (activeChart charts activeChartId) = .str s →
          currentInterval charts activeChartId = .str s)
        ∧ (readField Chart.interval (activeChart charts activeChartId) = .undefined
            ∨ readField Chart.interval (activeChart charts activeChartId) = .str "" →
          currentInterval charts activeChartId = .str "1d"))
    ∧ (charts = [] → currentSymbol charts activeChartId = .str "NIFTY 50"
        ∧ currentExchange charts activeChartId = .str "NSE"
        ∧ currentInterval charts activeChartId = .str "1d") := by
  have hfall : ∀ (v : Val) (d : String), v = .undefined ∨ v = .str "" → v.or (.str d) = .str d := by
    intro v d h
    rcases h with h | h <;> subst h <;> rfl
  refine ⟨?_, ?_, ?_, ⟨?_, ?_⟩, ⟨?_, ?_⟩, ⟨?_, ?_⟩, ?_⟩
  · intro pre c post hsplit hc hpre
    have hfind : findChart charts activeChartId = some c := by
      subst hsplit
      unfold findChart
      rw [List.find?_append]
      have hnone : List.find? (fun c => c.id.strictEq activeChartId) pre = none := by
        rw [List.find?_eq_none]
        intro d hd
        simp [hpre d hd]
      simp [hnone, List.find?_cons, hc]
    simp [activeChart, hfind]
  · intro hall
    have hfind : findChart charts activeChartId = none := by
      unfold findChart
      rw [List.find?_eq_none]
      intro d hd
      simp [hall d hd]
    simp only [activeChart, hfind]
    cases charts.head? <;> rfl
  · intro h; subst h; rfl
  · intro s hs h
    simp only [currentSymbol, h]
    exact or_of_nonempty_str s _ hs
  · intro h
    exact hfall _ _ h
  · intro s hs h
    simp only [currentExchange, h]
    exact or_of_nonempty_str s _ hs
  · intro h
    exact hfall _ _ h
  · intro s hs h
    simp only [currentInterval, h]
    exact or_of_nonempty_str s _ hs
  · intro h
    exact hfall _ _ h
  · intro h; subst h
    exact ⟨rfl, rfl, rfl⟩

theorem toggleIndicatorVisibility_found (charts : List Chart) (activeChartId indicatorId : Val)
    (chart : Chart) (ind : Obj)
    (hchart : charts.find? (fun c => c.id.strictEq activeChartId) = some chart)
    (hind : chart.indicators.find? (fun i => (i.get "id").strictEq indicatorId) = some ind) :
    toggleIndicatorVisibility charts activeChartId indicatorId
      = some { chartId := activeChartId, indicatorId := indicatorId,
               patch := Obj.ofList [("visible", (ind.get "visible").not)] } := by
  simp only [toggleIndicatorVisibility, hchart, hind]

theorem spread_visible_keeps_id (x : Obj) (v : Val) :
    (x.spread (Obj.ofList [("visible", v)])).get "id" = x.get "id" := by
  have h : (Obj.ofList [("visible", v)]) "id" = none := by
    simp [Obj.ofList, List.lookup]
  simp only [Obj.get, Obj.spread, h]

theorem spread_visible_apply (x : Obj) (v : Val) (k : String) :
    (x.spread (Obj.ofList [("visible", v)])) k = if k = "visible" then some v else x k := by
  by_cases hk : k = "visible"
  · subst hk; simp [Obj.spread, Obj.ofList, List.lookup]
  · have hb : (k == "visible") = false := by simpa using hk
    simp [Obj.spread, Obj.ofList, List.lookup, hb, hk]

theorem storeUpdateIndicator_find (charts : List Chart) (chartId indicatorId : Val)
    (v : Val) (chart : Chart) (ind : Obj)
    (hchart : charts.find? (fun c => c.id.strictEq chartId) = some chart)
    (hind : chart.indicators.find? (fun i => (i.get "id").strictEq indicatorId) = some ind) :
    ∃ chart1,
      (storeUpdateIndicator charts chartId indicatorId (Obj.ofList [("visible", v)])).find?
          (fun c => c.id.strictEq chartId) = some chart1
      ∧ chart1.indicators.find? (fun i => (i.get "id").strictEq indicatorId)
          = some (ind.spread (Obj.ofList [("visible", v)])) := by
  refine ⟨patchIndicator indicatorId (Obj.ofList [("visible", v)]) chart, ?_, ?_⟩
  · unfold storeUpdateIndicator
    rw [find?_updateFirst (fun c : Chart => c.id.strictEq chartId)
      (patchIndicator indicatorId (Obj.ofList [("visible", v)])) (fun x hx => hx), hchart]
    rfl
  · simp only [patchIndicator]
    rw [find?_updateFirst (fun i : Obj => (i.get "id").strictEq indicatorId)
      (fun i : Obj => i.spread (Obj.ofList [("visible", v)]))
      (fun x hx => by simp only [spread_visible_keeps_id]; exact hx), hind]
    rfl

theorem patchIndicator_twice (indicatorId : Val) (v w : Val) (chart : Chart) (ind : Obj)
    (hind : chart.indicators.find? (fun i => (i.get "id").strictEq indicatorId) = some ind)
    (hvis : ind "visible" = some w) :
    patchIndicator indicatorId (Obj.ofList [("visible", w)])
      (patchIndicator indicatorId (Obj.ofList [("visible", v)]) chart) = chart := by
  simp only [patchIndicator]
  rw [updateFirst_updateFirst (fun i : Obj => (i.get "id").strictEq indicatorId)
    (fun i : Obj => i.spread (Obj.ofList [("visible", v)]))
    (fun i : Obj => i.spread (Obj.ofList [("visible", w)]))
    (fun x hx => by simp only [spread_visible_keeps_id]; exact hx)]
  have hinds : updateFirst (fun i : Obj => (i.get "id").strictEq indicatorId)
      (fun i => (i.spread (Obj.ofList [("visible", v)])).spread (Obj.ofList [("visible", w)]))
      chart.indicators = chart.indicators := by
    apply updateFirst_fixed
    intro y hy
    rw [hind] at hy
    simp only [Option.some.injEq] at hy
    subst hy
    funext k
    rw [spread_visible_apply, spread_visible_apply]
    by_cases hk : k = "visible"
    · subst hk; simp [hvis]
    · simp [hk]
  rw [hinds]

theorem storeUpdateIndicator_twice (charts : List Chart) (chartId indicatorId : Val)
    (v w : Val) (chart : Chart) (ind : Obj)
    (hchart : charts.find? (fun c => c.id.strictEq chartId) = some chart)
    (hind : chart.indicators.find? (fun i => (i.get "id").strictEq indicatorId) = some ind)
    (hvis : ind "visible" = some w) :
    storeUpdateIndicator
        (storeUpdateIndicator charts chartId indicatorId (Obj.ofList [("visible", v)]))
        chartId indicatorId (Obj.ofList [("visible", w)]) = charts := by
  unfold storeUpdateIndicator
  rw [updateFirst_updateFirst (fun c : Chart => c.id.strictEq chartId)
    (patchIndicator indicatorId (Obj.ofList [("visible", v)]))
    (patchIndicator indicatorId (Obj.ofList [("visible", w)])) (fun x hx => hx)]
  apply updateFirst_fixed
  intro x hx
  rw [hchart] at hx
  simp only [Option.some.injEq] at hx
  subst hx
  exact patchIndicator_twice indicatorId v w _ ind hind hvis

theorem spread_spread_self (x e : Obj) : (x.spread e).spread e = x.spread e := by
  funext k
  simp only [Obj.spread]
  cases e k <;> rfl

theorem patchIndicator_same_twice (indicatorId : Val) (e : Obj)
    (hid : ∀ x : Obj, (x.spread e).get "id" = x.get "id") (chart : Chart) :
    patchIndicator indicatorId e (patchIndicator indicatorId e chart)
      = patchIndicator indicatorId e chart := by
  simp only [patchIndicator]
  rw [updateFirst_updateFirst (fun i : Obj => (i.get "id").strictEq indicatorId)
    (fun i : Obj => i.spread e) (fun i : Obj => i.spread e)
    (fun x hx => by simp only [hid]; exact hx)]
  simp only [spread_spread_self]

/-- The same `visible` patch applied twice is the patch applied once. -/
theorem storeUpdateIndicator_same_twice (charts : List Chart) (chartId indicatorId : Val)
    (v : Val) :
    storeUpdateIndicator
        (storeUpdateIndicator charts chartId indicatorId (Obj.ofList [("visible", v)]))
        chartId indicatorId (Obj.ofList [("visible", v)])
      = storeUpdateIndicator charts chartId indicatorId (Obj.ofList [("visible", v)]) := by
  unfold storeUpdateIndicator
  rw [updateFirst_updateFirst (fun c : Chart => c.id.strictEq chartId)
    (patchIndicator indicatorId (Obj.ofList [("visible", v)]))
    (patchIndicator indicatorId (Obj.ofList [("visible", v)])) (fun x hx => hx)]
  simp only [patchIndicator_same_twice indicatorId (Obj.ofList [("visible", v)])
    (fun x => spread_visible_keeps_id x v)]

/-- C10, as amended: in a workspace whose active chart exists and holds an indicator
with the id (the one that `find` gives) whose `visible` is a boolean, with the store
merging the patch into that indicator, one `toggleIndicatorVisibility` flips
`visible` and keeps every other property of the indicator; a second call made from
the render that follows the first update restores the whole chart list: `visible` is
back, and every other property, indicator and chart is as it was. A second call made
from the render of the first call sends the patch of the first call again and leaves
the chart list as the first call left it. -/
theorem toggle_twice_restores (charts : List Chart) (activeChartId indicatorId : Val)
    (chart : Chart) (ind : Obj) (b : Bool)
    (hchart : charts.find? (fun c => c.id.strictEq activeChartId) = some chart)
    (hind : chart.indicators.find? (fun i => (i.get "id").strictEq indicatorId) = some ind)
    (hvis : ind "visible" = some (Val.bool b)) :
    afterToggle (afterToggle charts charts activeChartId indicatorId)
        (afterToggle charts charts activeChartId indicatorId) activeChartId indicatorId
      = charts
    ∧ (∃ chart1 ind1,
        (afterToggle charts charts activeChartId indicatorId).find?
            (fun c => c.id.strictEq activeChartId) = some chart1
        ∧ chart1.indicators.find? (fun i => (i.get "id").strictEq indicatorId) = some ind1
        ∧ ind1 "visible" = some (Val.bool (!b))
        ∧ ∀ k, k ≠ "visible" → ind1 k = ind k)
    ∧ afterToggle charts (afterToggle charts charts activeChartId indicatorId)
        activeChartId indicatorId
      = afterToggle charts charts activeChartId indicatorId := by
  have hnot : (ind.get "visible").not = Val.bool (!b) := by
    simp [Obj.get, hvis, Val.not, Val.truthy]
  have hcall := toggleIndicatorVisibility_found charts activeChartId indicatorId chart ind
    hchart hind
  have hstep1 : afterToggle charts charts activeChartId indicatorId
      = storeUpdateIndicator charts activeChartId indicatorId
          (Obj.ofList [("visible", Val.bool (!b))]) := by
    simp only [afterToggle, hcall, hnot]
  obtain ⟨chart1, hc1, hi1⟩ := storeUpdateIndicator_find charts activeChartId indicatorId
    (Val.bool (!b)) chart ind hchart hind
  have hvis1 : (ind.spread (Obj.ofList [("visible", Val.bool (!b))])) "visible"
      = some (Val.bool (!b)) := by
    rw [spread_visible_apply]; simp
  have hnot1 : ((ind.spread (Obj.ofList [("visible", Val.bool (!b))])).get "visible").not
      = Val.bool b := by
    simp [Obj.get, hvis1, Val.not, Val.truthy]
  refine ⟨?_, ?_, ?_⟩
  · rw [hstep1]
    simp only [afterToggle,
      toggleIndicatorVisibility_found _ activeChartId indicatorId chart1 _ hc1 hi1, hnot1]
    exact storeUpdateIndicator_twice charts activeChartId indicatorId _ _ chart ind
      hchart hind hvis
  · refine ⟨chart1, _, ?_, hi1, hvis1, ?_⟩
    · rw [hstep1]; exact hc1
    · intro k hk
      rw [spread_visible_apply]
      simp [hk]
  · rw [hstep1]
    simp only [afterToggle, hcall, hnot]
    exact storeUpdateIndicator_same_twice charts activeChartId indicatorId _

end UseChart

/-! ### Comparison symbols -/

namespace UseChart

theorem samePair_iff (symbol : String) (exchange : Option String) (c : ComparisonSymbol) :
    samePair symbol exchange c = true ↔ c.symbol = symbol ∧ c.exchange = exchange := by
  simp [samePair]

theorem find?_samePair_eq_none (symbol : String) (exchange : Option String)
    (l : List ComparisonSymbol) :
    l.find? (samePair symbol exchange) = none
      ↔ ∀ c ∈ l, ¬ (c.symbol = symbol ∧ c.exchange = exchange) := by
  rw [List.find?_eq_none]
  constructor
  · intro h c hc hpair
    exact h c hc ((samePair_iff symbol exchange c).mpr hpair)
  · intro h c hc hsame
    exact h c hc ((samePair_iff symbol exchange c).mp hsame)

/-- The active chart after the store merged a comparison list into it. -/
theorem activeComparison_storeUpdate (charts : List Chart) (chartId : Val) (chart : Chart)
    (list : List ComparisonSymbol)
    (hchart : charts.find? (fun c => c.id.strictEq chartId) = some chart) :
    (storeUpdateComparison charts chartId list).find? (fun c => c.id.strictEq chartId)
        = some (withComparisonSymbols list chart)
    ∧ activeComparison (storeUpdateComparison charts chartId list) chartId = list := by
  have hfind : (storeUpdateComparison charts chartId list).find?
      (fun c => c.id.strictEq chartId) = some (withComparisonSymbols list chart) := by
    unfold storeUpdateComparison
    rw [find?_updateFirst (fun c : Chart => c.id.strictEq chartId)
      (withComparisonSymbols list) (fun x hx => hx), hchart]
    rfl
  refine ⟨hfind, ?_⟩
  simp only [activeComparison, hfind]
  rfl

theorem addComparisonSymbol_of_present (charts : List Chart) (activeChartId : Val)
    (chart : Chart) (symbol : String) (exchange : Option String) (color : Val)
    (hchart : charts.find? (fun c => c.id.strictEq activeChartId) = some chart)
    (hex : ∃ c ∈ chart.comparisonSymbols.getD [], c.symbol = symbol ∧ c.exchange = exchange) :
    addComparisonSymbol charts activeChartId symbol exchange color = none := by
  simp only [addComparisonSymbol, hchart]
  cases hf : (chart.comparisonSymbols.getD []).find? (samePair symbol exchange) with
  | some c => rfl
  | none =>
    obtain ⟨c, hc, hpair⟩ := hex
    exact absurd hpair ((find?_samePair_eq_none symbol exchange _).mp hf c hc)

theorem addComparisonSymbol_of_absent (charts : List Chart) (activeChartId : Val)
    (chart : Chart) (symbol : String) (exchange : Option String) (color : Val)
    (hchart : charts.find? (fun c => c.id.strictEq activeChartId) = some chart)
    (hno : ∀ c ∈ chart.comparisonSymbols.getD [], ¬ (c.symbol = symbol ∧ c.exchange = exchange)) :
    addComparisonSymbol charts activeChartId symbol exchange color
      = some { chartId := activeChartId,
               comparisonSymbols := chart.comparisonSymbols.getD []
                 ++ [{ symbol := symbol, exchange := exchange, color := color }] } := by
  simp only [addComparisonSymbol, hchart,
    (find?_samePair_eq_none symbol exchange _).mpr hno]

/-- In a list without repeated pairs that holds the pair, exactly one entry has it. -/
theorem filter_samePair_length (symbol : String) (exchange : Option String)
    (l : List ComparisonSymbol) (huniq : UniquePairs l)
    (hex : ∃ c ∈ l, c.symbol = symbol ∧ c.exchange = exchange) :
    (l.filter (samePair symbol exchange)).length = 1 := by
  induction l with
  | nil => obtain ⟨c, hc, -⟩ := hex; simp at hc
  | cons a rest ih =>
    unfold UniquePairs at huniq
    rw [List.pairwise_cons] at huniq
    by_cases ha : samePair symbol exchange a = true
    · have hpa := (samePair_iff symbol exchange a).mp ha
      have hrest : rest.filter (samePair symbol exchange) = [] := by
        rw [List.filter_eq_nil_iff]
        intro b hb hsb
        have hpb := (samePair_iff symbol exchange b).mp hsb
        exact huniq.1 b hb ⟨hpa.1.trans hpb.1.symm, hpa.2.trans hpb.2.symm⟩
      simp [List.filter_cons, ha, hrest]
    · have hex2 : ∃ c ∈ rest, c.symbol = symbol ∧ c.exchange = exchange := by
        obtain ⟨c, hc, hpair⟩ := hex
        rcases List.mem_cons.mp hc with rfl | hc2
        · exact absurd ((samePair_iff symbol exchange c).mpr hpair) ha
        · exact ⟨c, hc2, hpair⟩
      simp only [List.filter_cons, ha]
      exact ih huniq.2 hex2

theorem uniquePairs_append_new (l : List ComparisonSymbol) (symbol : String)
    (exchange : Option String) (color : Val) (huniq : UniquePairs l)
    (hno : ∀ c ∈ l, ¬ (c.symbol = symbol ∧ c.exchange = exchange)) :
    UniquePairs (l ++ [{ symbol := symbol, exchange := exchange, color := color }]) := by
  unfold UniquePairs at huniq ⊢
  rw [List.pairwise_append]
  refine ⟨huniq, List.pairwise_singleton _ _, ?_⟩
  intro a ha b hb
  simp only [List.mem_singleton] at hb
  subst hb
  exact hno a ha

end UseChart

namespace UseChart

theorem activeComparison_of_find (charts : List Chart) (activeChartId : Val) (chart : Chart)
    (hchart : charts.find? (fun c => c.id.strictEq activeChartId) = some chart) :
    activeComparison charts activeChartId = chart.comparisonSymbols.getD [] := by
  simp only [activeComparison, hchart]

/-- The active chart after `addComparisonSymbol`: it is still found, its comparison
list has no repeated pair and holds the pair that was added. -/
theorem afterAddComparison_active (charts : List Chart) (activeChartId : Val)
    (chart : Chart) (symbol : String) (exchange : Option String) (color : Val)
    (hchart : charts.find? (fun c => c.id.strictEq activeChartId) = some chart)
    (huniq : UniquePairs (chart.comparisonSymbols.getD [])) :
    ∃ chart1,
      (afterAddComparison charts activeChartId symbol exchange color).find?
          (fun c => c.id.strictEq activeChartId) = some chart1
      ∧ UniquePairs (chart1.comparisonSymbols.getD [])
      ∧ ∃ c ∈ chart1.comparisonSymbols.getD [], c.symbol = symbol ∧ c.exchange = exchange := by
  by_cases hex : ∃ c ∈ chart.comparisonSymbols.getD [], c.symbol = symbol ∧ c.exchange = exchange
  · refine ⟨chart, ?_, huniq, hex⟩
    simp only [afterAddComparison,
      addComparisonSymbol_of_present charts activeChartId chart symbol exchange color hchart hex]
    exact hchart
  · have hno : ∀ c ∈ chart.comparisonSymbols.getD [],
        ¬ (c.symbol = symbol ∧ c.exchange = exchange) := by
      intro c hc hpair
      exact hex ⟨c, hc, hpair⟩
    refine ⟨withComparisonSymbols (chart.comparisonSymbols.getD []
        ++ [{ symbol := symbol, exchange := exchange, color := color }]) chart, ?_, ?_, ?_⟩
    · simp only [afterAddComparison,
        addComparisonSymbol_of_absent charts activeChartId chart symbol exchange color hchart hno]
      exact (activeComparison_storeUpdate charts activeChartId chart _ hchart).1
    · exact uniquePairs_append_new _ symbol exchange color huniq hno
    · exact ⟨{ symbol := symbol, exchange := exchange, color := color },
        by simp [withComparisonSymbols], rfl, rfl⟩

/-- C11: on an active chart whose comparison list has no two entries with the same
(symbol, exchange) pair, `addComparisonSymbol` leaves a list with no two such
entries; it makes no store call, and the chart list stays as it is, when an entry
with the pair is already there; so a second add of the same pair, with whatever
color, makes no call, and after the two adds exactly one entry has the pair. -/
theorem addComparisonSymbol_keeps_unique (charts : List Chart) (activeChartId : Val)
    (chart : Chart) (symbol : String) (exchange : Option String) (color color2 : Val)
    (hchart : charts.find? (fun c => c.id.strictEq activeChartId) = some chart)
    (huniq : UniquePairs (chart.comparisonSymbols.getD [])) :
    UniquePairs (activeComparison
        (afterAddComparison charts activeChartId symbol exchange color) activeChartId)
    ∧ ((∃ c ∈ chart.comparisonSymbols.getD [], c.symbol = symbol ∧ c.exchange = exchange) →
        addComparisonSymbol charts activeChartId symbol exchange color = none
        ∧ afterAddComparison charts activeChartId symbol exchange color = charts)
    ∧ addComparisonSymbol (afterAddComparison charts activeChartId symbol exchange color)
        activeChartId symbol exchange color2 = none
    ∧ ((activeComparison
          (afterAddComparison (afterAddComparison charts activeChartId symbol exchange color)
            activeChartId symbol exchange color2) activeChartId).filter
        (samePair symbol exchange)).length = 1 := by
  obtain ⟨chart1, hfind1, huniq1, hex1⟩ :=
    afterAddComparison_active charts activeChartId chart symbol exchange color hchart huniq
  have hsecond := addComparisonSymbol_of_present _ activeChartId chart1 symbol exchange color2
    hfind1 hex1
  refine ⟨?_, ?_, hsecond, ?_⟩
  · rw [activeComparison_of_find _ activeChartId chart1 hfind1]
    exact huniq1
  · intro hex
    have hnone := addComparisonSymbol_of_present charts activeChartId chart symbol exchange
      color hchart hex
    exact ⟨hnone, by simp only [afterAddComparison, hnone]⟩
  · have hafter2 : afterAddComparison
        (afterAddComparison charts activeChartId symbol exchange color)
        activeChartId symbol exchange color2
        = afterAddComparison charts activeChartId symbol exchange color := by
      rw [afterAddComparison, hsecond]
    rw [hafter2, activeComparison_of_find _ activeChartId chart1 hfind1]
    exact filter_samePair_length symbol exchange _ huniq1 hex1

theorem withComparisonSymbols_self (c : Chart) (l : List ComparisonSymbol)
    (h : c.comparisonSymbols = some l) : withComparisonSymbols ((some l).getD []) c = c := by
  cases c
  simp only [withComparisonSymbols, Option.getD_some] at h ⊢
  rw [h]

theorem filter_not_samePair_append_new (l : List ComparisonSymbol) (symbol : String)
    (exchange : Option String) (color : Val)
    (hno : ∀ c ∈ l, ¬ (c.symbol = symbol ∧ c.exchange = exchange)) :
    (l ++ [ComparisonSymbol.mk symbol exchange color]).filter
        (fun c => !(samePair symbol exchange c)) = l := by
  rw [List.filter_append]
  have hkeep : l.filter (fun c => !(samePair symbol exchange c)) = l := by
    rw [List.filter_eq_self]
    intro c hc
    have hfalse : samePair symbol exchange c = false := by
      cases hs : samePair symbol exchange c with
      | false => rfl
      | true => exact absurd ((samePair_iff symbol exchange c).mp hs) (hno c hc)
    simp [hfalse]
  have hdrop : [ComparisonSymbol.mk symbol exchange color].filter
      (fun c => !(samePair symbol exchange c)) = [] := by
    simp [samePair]
  rw [hkeep, hdrop, List.append_nil]

/-- C19: on an active chart `removeComparisonSymbol` passes to `updateChart` the
comparison list without the entries whose (symbol, exchange) pair matches, all others
kept in their order; so for a pair that is not on the chart, `addComparisonSymbol`
and then `removeComparisonSymbol` give back the comparison list that was there, and
the whole chart list when the chart had the list as a property. -/
theorem removeComparisonSymbol_filters (charts : List Chart) (activeChartId : Val)
    (chart : Chart) (symbol : String) (exchange : Option String) (color : Val)
    (hchart : charts.find? (fun c => c.id.strictEq activeChartId) = some chart) :
    (∃ call, removeComparisonSymbol charts activeChartId symbol exchange = some call
      ∧ call.chartId = activeChartId
      ∧ call.comparisonSymbols.Sublist (chart.comparisonSymbols.getD [])
      ∧ (∀ c, c ∈ call.comparisonSymbols ↔
          c ∈ chart.comparisonSymbols.getD [] ∧ ¬ (c.symbol = symbol ∧ c.exchange = exchange))
      ∧ call.comparisonSymbols = (chart.comparisonSymbols.getD []).filter
          (fun c => !(samePair symbol exchange c)))
    ∧ ((∀ c ∈ chart.comparisonSymbols.getD [], ¬ (c.symbol = symbol ∧ c.exchange = exchange)) →
        activeComparison
          (afterRemoveComparison
            (afterAddComparison charts activeChartId symbol exchange color)
            activeChartId symbol exchange) activeChartId
          = chart.comparisonSymbols.getD []
        ∧ (∀ l, chart.comparisonSymbols = some l →
            afterRemoveComparison
              (afterAddComparison charts activeChartId symbol exchange color)
              activeChartId symbol exchange = charts)) := by
  constructor
  · refine ⟨{ chartId := activeChartId,
               comparisonSymbols := (chart.comparisonSymbols.getD []).filter
                 (fun c => !(samePair symbol exchange c)) },
      by simp only [removeComparisonSymbol, hchart], rfl, List.filter_sublist _, ?_, rfl⟩
    intro c
    simp only [List.mem_filter, Bool.not_eq_true', and_congr_right_iff]
    intro _
    constructor
    · intro hf hpair
      rw [(samePair_iff symbol exchange c).mpr hpair] at hf
      cases hf
    · intro hn
      cases hs : samePair symbol exchange c with
      | false => rfl
      | true => exact absurd ((samePair_iff symbol exchange c).mp hs) hn
  · intro hno
    have hadd : afterAddComparison charts activeChartId symbol exchange color
        = storeUpdateComparison charts activeChartId (chart.comparisonSymbols.getD []
            ++ [{ symbol := symbol, exchange := exchange, color := color }]) := by
      simp only [afterAddComparison,
        addComparisonSymbol_of_absent charts activeChartId chart symbol exchange color hchart hno]
    have hfind1 := (activeComparison_storeUpdate charts activeChartId chart
      (chart.comparisonSymbols.getD []
        ++ [{ symbol := symbol, exchange := exchange, color := color }]) hchart).1
    have hrem : afterRemoveComparison
        (afterAddComparison charts activeChartId symbol exchange color)
        activeChartId symbol exchange
        = storeUpdateComparison charts activeChartId (chart.comparisonSymbols.getD []) := by
      rw [hadd]
      simp only [afterRemoveComparison, removeComparisonSymbol, hfind1]
      have hlist : (withComparisonSymbols (chart.comparisonSymbols.getD []
          ++ [{ symbol := symbol, exchange := exchange, color := color }])
          chart).comparisonSymbols.getD [] = chart.comparisonSymbols.getD []
            ++ [{ symbol := symbol, exchange := exchange, color := color }] := rfl
      rw [hlist, filter_not_samePair_append_new _ symbol exchange color hno]
      unfold storeUpdateComparison
      rw [updateFirst_updateFirst (fun c : Chart => c.id.strictEq activeChartId)
        (withComparisonSymbols _) (withComparisonSymbols _) (fun x hx => hx)]
      rfl
    rw [hrem]
    refine ⟨(activeComparison_storeUpdate charts activeChartId chart _ hchart).2, ?_⟩
    intro l hl
    unfold storeUpdateComparison
    apply updateFirst_fixed
    intro x hx
    rw [hchart] at hx
    simp only [Option.some.injEq] at hx
    subst hx
    rw [hl]
    exact withComparisonSymbols_self _ l hl

end UseChart

/-! ### Multi-chart management -/

namespace UseChart

theorem isInteger_iff (v : Val) : isInteger v = true ↔ ∃ n : Int, v = Val.num n := by
  cases v <;> simp [isInteger]

theorem isSafeInteger_iff (v : Val) :
    isSafeInteger v = true ↔ ∃ n : Int, v = Val.num n ∧ -(2 : Int) ^ 53 < n ∧ n < 2 ^ 53 := by
  cases v <;> simp [isSafeInteger]

theorem isInteger_of_isSafeInteger (v : Val) (h : isSafeInteger v = true) :
    isInteger v = true := by
  obtain ⟨n, hn, -⟩ := (isSafeInteger_iff v).mp h
  exact (isInteger_iff v).mpr ⟨n, hn⟩

/-- The fold of `Math.max` over integer arguments, from an integer start: the result
is an integer, it is the start or one of the arguments, and nothing exceeds it. -/
theorem foldl_maxNumber_int (conv : Val → Val) (l : List Val)
    (hint : ∀ v ∈ l, isInteger v = true) :
    ∀ a : Int, ∃ m : Int,
      l.foldl (fun acc v => maxNumber acc (toNumber conv v)) (Val.num a) = Val.num m
      ∧ a ≤ m ∧ (∀ n : Int, Val.num n ∈ l → n ≤ m) ∧ (m = a ∨ Val.num m ∈ l) := by
  induction l with
  | nil => intro a; exact ⟨a, rfl, le_refl a, by simp, Or.inl rfl⟩
  | cons v rest ih =>
    intro a
    obtain ⟨n, hn⟩ := (isInteger_iff v).mp (hint v (List.mem_cons_self _ _))
    subst hn
    obtain ⟨m, hm, ham, hall, hmem⟩ :=
      ih (fun w hw => hint w (List.mem_cons_of_mem _ hw)) (max a n)
    refine ⟨m, ?_, le_trans (le_max_left a n) ham, ?_, ?_⟩
    · simpa [List.foldl_cons, toNumber, maxNumber] using hm
    · intro k hk
      rcases List.mem_cons.mp hk with hk1 | hk2
      · have hkn : k = n := by simpa using hk1
        subst hkn
        exact le_trans (le_max_right a k) ham
      · exact hall k hk2
    · rcases hmem with hma | hmr
      · rcases max_choice a n with h | h
        · exact Or.inl (hma.trans h)
        · exact Or.inr (by rw [hma, h]; exact List.mem_cons_self _ _)
      · exact Or.inr (List.mem_cons_of_mem _ hmr)

/-- `Math.max` of a non-empty list of integer ids is the largest of them. -/
theorem mathMax_int (conv : Val → Val) (l : List Val) (hne : l ≠ [])
    (hint : ∀ v ∈ l, isInteger v = true) :
    ∃ m : Int, mathMax conv l = Val.num m ∧ Val.num m ∈ l
      ∧ ∀ n : Int, Val.num n ∈ l → n ≤ m := by
  cases l with
  | nil => exact absurd rfl hne
  | cons v rest =>
    obtain ⟨n, hn⟩ := (isInteger_iff v).mp (hint v (List.mem_cons_self _ _))
    subst hn
    obtain ⟨m, hm, hnm, hall, hmem⟩ :=
      foldl_maxNumber_int conv rest (fun w hw => hint w (List.mem_cons_of_mem _ hw)) n
    refine ⟨m, ?_, ?_, ?_⟩
    · simpa [mathMax, List.foldl_cons, toNumber, maxNumber] using hm
    · rcases hmem with h | h
      · rw [h]; exact List.mem_cons_self _ _
      · exact List.mem_cons_of_mem _ h
    · intro k hk
      rcases List.mem_cons.mp hk with hk1 | hk2
      · have hkn : k = n := by simpa using hk1
        subst hkn
        exact hnm
      · exact hall k hk2

/-- The double sum `n + 1` is the exact sum for an integer `n` of magnitude below
2^53. -/
theorem addOne_exact (n : Int) (h1 : -(2 : Int) ^ 53 < n) (h2 : n < 2 ^ 53) :
    addOne (.num n) = .num (n + 1) := by
  have hcast : (n : ℚ) + 1 = ((n + 1 : ℤ) : ℚ) := by push_cast; ring
  have habs : |n + 1| ≤ 2 ^ 53 := abs_le.mpr ⟨by omega, by omega⟩
  have hnear := Double.nearest_intCast (n + 1) habs
  have hle : ((n + 1 : ℤ) : ℚ) ≤ 2 ^ 53 := by
    have : n + 1 ≤ 2 ^ 53 := by omega
    exact_mod_cast this
  have hge : -(2 : ℚ) ^ 53 ≤ ((n + 1 : ℤ) : ℚ) := by
    have : -(2 : ℤ) ^ 53 ≤ n + 1 := by omega
    exact_mod_cast this
  have hbig : (2 : ℚ) ^ 53 < 2 ^ 1024 := by norm_num
  simp only [addOne]
  rw [hcast, hnear, if_neg (by linarith), if_neg (by linarith), Int.floor_intCast]

/-- The double sum `2^53 + 1` is 2^53. -/
theorem addOne_two_pow_53 : addOne (.num (2 ^ 53)) = .num (2 ^ 53) := by
  have hcast : (((2 ^ 53 : ℤ)) : ℚ) + 1 = 2 ^ 53 + 1 := by push_cast; ring
  have hfl : (2 : ℚ) ^ 53 = (((2 ^ 53 : ℤ)) : ℚ) := by push_cast; ring
  simp only [addOne]
  rw [hcast, Double.nearest_two_pow_53_add_one, if_neg (by norm_num), if_neg (by norm_num),
    hfl, Int.floor_intCast]

/-- The id that `addChart` allocates on a non-empty list of safe integer ids. -/
theorem addChart_newId_int (conv : Val → Val) (charts : List Chart) (hne : charts ≠ [])
    (hsafe : ∀ c ∈ charts, isSafeInteger c.id = true) :
    ∃ m : Int, (∃ c ∈ charts, c.id = Val.num m)
      ∧ (∀ c ∈ charts, ∀ n : Int, c.id = Val.num n → n ≤ m)
      ∧ (addChart conv charts).newId = Val.num (m + 1) := by
  have hne2 : charts.map (fun c => c.id) ≠ [] := by
    simpa using hne
  have hint2 : ∀ v ∈ charts.map (fun c => c.id), isInteger v = true := by
    intro v hv
    obtain ⟨c, hc, rfl⟩ := List.mem_map.mp hv
    exact isInteger_of_isSafeInteger _ (hsafe c hc)
  obtain ⟨m, hm, hmem, hall⟩ := mathMax_int conv _ hne2 hint2
  obtain ⟨c0, hc0, hcm⟩ := List.mem_map.mp hmem
  have hcm2 : c0.id = Val.num m := hcm
  refine ⟨m, ⟨c0, hc0, hcm2⟩, ?_, ?_⟩
  · intro c hc n hn
    exact hall n (List.mem_map.mpr ⟨c, hc, hn⟩)
  · obtain ⟨k, hk, hk1, hk2⟩ := (isSafeInteger_iff c0.id).mp (hsafe c0 hc0)
    rw [hcm2] at hk
    have hkm : m = k := by simpa using hk
    subst hkm
    simp only [addChart, hm]
    exact addOne_exact m hk1 hk2

/-- The new id differs from every id of a non-empty list of safe integer ids. -/
theorem addChart_newId_fresh (conv : Val → Val) (charts : List Chart) (hne : charts ≠ [])
    (hsafe : ∀ c ∈ charts, isSafeInteger c.id = true) :
    isInteger (addChart conv charts).newId = true
      ∧ ∀ c ∈ charts, c.id ≠ (addChart conv charts).newId := by
  obtain ⟨m, -, hall, hnew⟩ := addChart_newId_int conv charts hne hsafe
  refine ⟨by rw [hnew]; rfl, ?_⟩
  intro c hc heq
  rw [hnew] at heq
  have := hall c hc (m + 1) heq
  omega

/-- C12: with exactly one chart the adapter's `removeChart` makes no call to the
store, whatever the id, and the chart list and its length stay as they are; with two
or more charts it calls `removeChart` of the store with the same id. -/
theorem removeChart_guard (charts : List Chart) (chartId : Val) :
    (charts.length = 1 →
      removeChart charts chartId = none
      ∧ afterRemoveChart charts chartId = charts
      ∧ (afterRemoveChart charts chartId).length = charts.length)
    ∧ (2 ≤ charts.length →
      removeChart charts chartId = some chartId
      ∧ afterRemoveChart charts chartId = storeRemoveChart charts chartId) := by
  constructor
  · intro h
    have hnone : removeChart charts chartId = none := by
      simp [removeChart, h]
    refine ⟨hnone, ?_, ?_⟩ <;> simp only [afterRemoveChart, hnone]
  · intro h
    have hsome : removeChart charts chartId = some chartId := by
      have : ¬ charts.length ≤ 1 := by omega
      simp [removeChart, this]
    exact ⟨hsome, by simp only [afterRemoveChart, hsome]⟩

/-- C13, as amended: on a non-empty chart list whose ids are integers of magnitude
below 2^53 `addChart` returns the largest id plus one, which no chart of the list
has, and hands the store the chart with that id, 'NIFTY 50', 'NSE', '1d', no
indicators, no comparison symbols and a null strategy; ids that were unique stay
unique when the chart is appended. -/
theorem addChart_allocates_max_plus_one (conv : Val → Val) (charts : List Chart)
    (hne : charts ≠ []) (hsafe : ∀ c ∈ charts, isSafeInteger c.id = true) :
    (∃ m : Int, (∃ c ∈ charts, c.id = Val.num m)
      ∧ (∀ c ∈ charts, ∀ n : Int, c.id = Val.num n → n ≤ m)
      ∧ (addChart conv charts).newId = Val.num (m + 1))
    ∧ (∀ c ∈ charts, c.id ≠ (addChart conv charts).newId)
    ∧ (addChart conv charts).newChart
        = { id := (addChart conv charts).newId, symbol := .str "NIFTY 50",
            exchange := .str "NSE", interval := .str "1d", indicators := [],
            comparisonSymbols := some [], strategyConfig := .null }
    ∧ ((charts.map (fun c => c.id)).Nodup →
        ((afterAddChart conv charts).map (fun c => c.id)).Nodup) := by
  refine ⟨addChart_newId_int conv charts hne hsafe,
    (addChart_newId_fresh conv charts hne hsafe).2, rfl, ?_⟩
  intro hnodup
  simp only [afterAddChart, storeAddChart, List.map_append, List.map_cons, List.map_nil]
  rw [List.nodup_append]
  refine ⟨hnodup, List.nodup_singleton _, ?_⟩
  intro v hv hv2
  simp only [List.mem_singleton] at hv2
  obtain ⟨c, hc, hcv⟩ := List.mem_map.mp hv
  have hfresh := (addChart_newId_fresh conv charts hne hsafe).2 c hc
  apply hfresh
  rw [hcv, hv2]
  rfl

end UseChart

namespace UseChart

/-- C14 at its failing input: with no charts `Math.max()` is `-Infinity`, so the id
that `addChart` returns, and gives the new chart, is `-Infinity` and no integer. -/
theorem addChart_empty_workspace (conv : Val → Val) :
    mathMax conv (([] : List Chart).map (fun c => c.id)) = Val.negInf
    ∧ (addChart conv []).newId = Val.negInf
    ∧ isInteger (addChart conv []).newId = false
    ∧ (addChart conv []).newChart.id = Val.negInf
    ∧ (afterAddChart conv []).map (fun c => c.id) = [Val.negInf] := by
  refine ⟨rfl, rfl, rfl, rfl, rfl⟩

theorem storeRemoveChart_append_fresh (charts : List Chart) (chart : Chart)
    (hfresh : ∀ c ∈ charts, c.id ≠ chart.id) (hid : isInteger chart.id = true) :
    storeRemoveChart (charts ++ [chart]) chart.id = charts := by
  unfold storeRemoveChart
  rw [List.filter_append]
  have hkeep : charts.filter (fun c => c.id.strictNe chart.id) = charts := by
    rw [List.filter_eq_self]
    intro c hc
    cases hs : c.id.strictEq chart.id with
    | false => simp [Val.strictNe, hs]
    | true => exact absurd (Val.eq_of_strictEq hs) (hfresh c hc)
  have hdrop : [chart].filter (fun c => c.id.strictNe chart.id) = [] := by
    obtain ⟨n, hn⟩ := (isInteger_iff chart.id).mp hid
    have hself : chart.id.strictEq chart.id = true :=
      Val.strictEq_self _ (by rw [hn]; exact fun h => Val.noConfusion h)
    simp [Val.strictNe, hself]
  rw [hkeep, hdrop, List.append_nil]

/-- C15, as amended: on a non-empty chart list whose ids are integers of magnitude
below 2^53, with the store appending the chart and removing by id, `addChart()` and
then `removeChart(newId)`, called from the render that shows the appended chart, give
back the chart list that was there, the same charts in the same order. Called from
the render of `addChart()` itself, `removeChart(newId)` gives the list back when that
render had two or more charts, and makes no call when it had one. -/
theorem addChart_then_removeChart (conv : Val → Val) (charts : List Chart)
    (hne : charts ≠ []) (hsafe : ∀ c ∈ charts, isSafeInteger c.id = true) :
    removeChart (afterAddChart conv charts) (addChart conv charts).newId
      = some (addChart conv charts).newId
    ∧ removeChartFrom (afterAddChart conv charts) (afterAddChart conv charts)
        (addChart conv charts).newId = charts
    ∧ (2 ≤ charts.length →
        removeChartFrom charts (afterAddChart conv charts) (addChart conv charts).newId
          = charts)
    ∧ (charts.length = 1 →
        removeChartFrom charts (afterAddChart conv charts) (addChart conv charts).newId
          = afterAddChart conv charts) := by
  have hlen : ¬ (afterAddChart conv charts).length ≤ 1 := by
    have hpos : 0 < charts.length := List.length_pos.mpr hne
    simp only [afterAddChart, storeAddChart, List.length_append, List.length_singleton]
    omega
  have hcall : removeChart (afterAddChart conv charts) (addChart conv charts).newId
      = some (addChart conv charts).newId := by
    simp [removeChart, hlen]
  obtain ⟨hid, hfresh⟩ := addChart_newId_fresh conv charts hne hsafe
  have hback : storeRemoveChart (afterAddChart conv charts) (addChart conv charts).newId
      = charts :=
    storeRemoveChart_append_fresh charts (addChart conv charts).newChart hfresh hid
  refine ⟨hcall, ?_, ?_, ?_⟩
  · simp only [removeChartFrom, hcall]
    exact hback
  · intro h2
    have : ¬ charts.length ≤ 1 := by omega
    simp only [removeChartFrom, removeChart, this, if_false]
    exact hback
  · intro h1
    simp [removeChartFrom, removeChart, h1]

/-- Removal by id from two or more charts with distinct ids leaves a chart. -/
theorem storeRemoveChart_ne_nil (charts : List Chart) (chartId : Val)
    (hlen : 2 ≤ charts.length) (hnodup : (charts.map (fun c => c.id)).Nodup) :
    storeRemoveChart charts chartId ≠ [] := by
  match charts, hlen, hnodup with
  | a :: b :: rest, _, hnodup =>
    have hab : a.id ≠ b.id := by
      intro h
      simp only [List.map_cons, List.nodup_cons, List.mem_cons] at hnodup
      exact hnodup.1 (Or.inl h)
    intro hnil
    unfold storeRemoveChart at hnil
    rw [List.filter_eq_nil_iff] at hnil
    have ha := hnil a (List.mem_cons_self _ _)
    have hb := hnil b (List.mem_cons_of_mem _ (List.mem_cons_self _ _))
    simp only [Val.strictNe, Bool.not_eq_true', Bool.not_eq_false] at ha hb
    exact hab ((Val.eq_of_strictEq ha).trans (Val.eq_of_strictEq hb).symm)

theorem afterRemoveChart_ne_nil (charts : List Chart) (chartId : Val) (hne : charts ≠ [])
    (hnodup : (charts.map (fun c => c.id)).Nodup) :
    afterRemoveChart charts chartId ≠ [] := by
  by_cases hlen : charts.length ≤ 1
  · simp only [afterRemoveChart, removeChart, hlen, if_true]
    exact hne
  · simp only [afterRemoveChart, removeChart, hlen, if_false]
    exact storeRemoveChart_ne_nil charts chartId (by omega) hnodup

theorem afterRemoveChart_sublist (charts : List Chart) (chartId : Val) :
    (afterRemoveChart charts chartId).Sublist charts := by
  by_cases hlen : charts.length ≤ 1
  · simp only [afterRemoveChart, removeChart, hlen, if_true]
    exact List.Sublist.refl _
  · simp only [afterRemoveChart, removeChart, hlen, if_false, storeRemoveChart]
    exact List.filter_sublist _

theorem runOps_invariant (conv : Val → Val) (ops : List ChartOp) :
    ∀ w : Workspace, FreshWithRoom w ops.length →
      FreshWithRoom (runOps conv w (renderAfterEach ops)) 0 := by
  induction ops with
  | nil => intro w h; exact h
  | cons op rest ih =>
    intro w h
    obtain ⟨hfresh, hne, hnodup, hids⟩ := h
    obtain ⟨rendered, store⟩ := w
    simp only at hfresh hne hnodup hids
    subst hfresh
    simp only [renderAfterEach, runOps]
    apply ih
    have hsafe : ∀ c ∈ rendered, isSafeInteger c.id = true := by
      intro c hc
      obtain ⟨n, hn, h1, h2⟩ := hids c hc
      rw [isSafeInteger_iff]
      refine ⟨n, hn, h1, ?_⟩
      simp only [List.length_cons] at h2
      push_cast at h2
      omega
    cases op with
    | add =>
      simp only [step, addChartFrom]
      refine ⟨rfl, by simp [storeAddChart], ?_, ?_⟩
      · simp only [storeAddChart, List.map_append, List.map_cons, List.map_nil]
        rw [List.nodup_append]
        refine ⟨hnodup, List.nodup_singleton _, ?_⟩
        intro v hv hv2
        simp only [List.mem_singleton] at hv2
        obtain ⟨c, hc, hcv⟩ := List.mem_map.mp hv
        apply (addChart_newId_fresh conv rendered hne hsafe).2 c hc
        rw [hcv, hv2]
        rfl
      · intro c hc
        simp only [storeAddChart, List.mem_append, List.mem_singleton] at hc
        rcases hc with hc | hc
        · obtain ⟨n, hn, h1, h2⟩ := hids c hc
          refine ⟨n, hn, h1, ?_⟩
          simp only [List.length_cons] at h2
          push_cast at h2
          omega
        · obtain ⟨m, ⟨c0, hc0, hcm⟩, -, hnew⟩ := addChart_newId_int conv rendered hne hsafe
          obtain ⟨n, hn, h1, h2⟩ := hids c0 hc0
          rw [hcm] at hn
          have hmn : m = n := by simpa using hn
          subst hmn
          refine ⟨m + 1, ?_, by omega, ?_⟩
          · rw [hc]; exact hnew
          · simp only [List.length_cons] at h2
            push_cast at h2
            omega
    | remove chartId =>
      have hstore : removeChartFrom rendered rendered chartId
          = afterRemoveChart rendered chartId := rfl
      simp only [step, hstore]
      refine ⟨rfl, afterRemoveChart_ne_nil rendered chartId hne hnodup,
        ((afterRemoveChart_sublist rendered chartId).map _).nodup hnodup, ?_⟩
      intro c hc
      obtain ⟨n, hn, h1, h2⟩ := hids c ((afterRemoveChart_sublist rendered chartId).subset hc)
      refine ⟨n, hn, h1, ?_⟩
      simp only [List.length_cons] at h2
      push_cast at h2
      omega
    | render =>
      simp only [step]
      refine ⟨rfl, hne, hnodup, ?_⟩
      intro c hc
      obtain ⟨n, hn, h1, h2⟩ := hids c hc
      refine ⟨n, hn, h1, ?_⟩
      simp only [List.length_cons] at h2
      push_cast at h2
      omega

/-- C16, as amended: from a chart list with at least one chart and pairwise distinct
ids the adapter's `removeChart`, called from a render that shows that list, leaves at
least one chart, whatever id it is given; so a workspace that starts with at least
one chart and distinct integer ids keeps at least one chart, and distinct integer
ids, through every sequence of the adapter's `addChart` and `removeChart` in which
the hook renders between two calls, as long as the ids are above -2^53 and stay
below 2^53. -/
theorem removeChart_keeps_a_chart (charts : List Chart) (hne : charts ≠ [])
    (hnodup : (charts.map (fun c => c.id)).Nodup) :
    (∀ chartId, 1 ≤ (removeChartFrom charts charts chartId).length)
    ∧ (∀ (conv : Val → Val) (ops : List ChartOp),
        (∀ c ∈ charts, ∃ n : Int, c.id = .num n ∧ -(2 : Int) ^ 53 < n
          ∧ n + ops.length < 2 ^ 53) →
        1 ≤ (runOps conv (Workspace.mk charts charts) (renderAfterEach ops)).store.length
          ∧ (∀ c ∈ (runOps conv (Workspace.mk charts charts) (renderAfterEach ops)).store,
              isSafeInteger c.id = true)
          ∧ ((runOps conv (Workspace.mk charts charts) (renderAfterEach ops)).store.map
              (fun c => c.id)).Nodup) := by
  constructor
  · intro chartId
    exact List.length_pos.mpr (afterRemoveChart_ne_nil charts chartId hne hnodup)
  · intro conv ops hids
    obtain ⟨-, h1, h2, h3⟩ := runOps_invariant conv ops (Workspace.mk charts charts)
      ⟨rfl, hne, hnodup, hids⟩
    refine ⟨List.length_pos.mpr h1, ?_, h2⟩
    intro c hc
    obtain ⟨n, hn, ha, hb⟩ := h3 c hc
    rw [isSafeInteger_iff]
    exact ⟨n, hn, ha, by simpa using hb⟩

end UseChart

/-! ### Growth of the ticker cache and identity of the instrument key -/

namespace MarketDataStore

theorem mem_keys_iff (td : TickerData) (key : String) :
    key ∈ keys td ↔ (lookup td key).isSome = true := by
  induction td with
  | nil => simp [keys, lookup, List.lookup]
  | cons p rest ih =>
    obtain ⟨k, o⟩ := p
    by_cases hk : key = k
    · subst hk; simp [keys, lookup, List.lookup]
    · have hb : (key == k) = false := by simpa using hk
      have ih2 : key ∈ List.map Prod.fst rest ↔ (List.lookup key rest).isSome = true := ih
      simp only [keys, lookup, List.map_cons, List.mem_cons, hk, false_or, List.lookup, hb]
      exact ih2

theorem lookup_upsert_isSome (td : TickerData) (key key2 : String) (snap : Obj) :
    (lookup (upsert td key snap) key2).isSome = true
      ↔ key2 = key ∨ (lookup td key2).isSome = true := by
  by_cases hk : key2 = key
  · subst hk; simp [lookup_upsert_self]
  · rw [lookup_upsert_other td key key2 snap hk]; simp [hk]

theorem keyCount_le_of_subset (td td2 : TickerData)
    (h : ∀ key, (lookup td key).isSome = true → (lookup td2 key).isSome = true) :
    keyCount td ≤ keyCount td2 := by
  apply Finset.card_le_card
  intro key hkey
  rw [List.mem_toFinset] at hkey ⊢
  exact (mem_keys_iff td2 key).mpr (h key ((mem_keys_iff td key).mp hkey))

/-- The `tickerData` after `updateTicker` is the prior one, or the prior one with a
snapshot written under the key of the call. -/
theorem updateTicker_tickerData (symbol : String) (exchange : Option String) (data : Obj)
    (now : Int) (state : State) :
    (updateTicker symbol exchange data now state).tickerData = state.tickerData
    ∨ ∃ snap, (updateTicker symbol exchange data now state).tickerData
        = upsert state.tickerData (instrumentKey symbol exchange) snap := by
  simp only [updateTicker, updateTickerReducer]
  split
  · exact Or.inl rfl
  · exact Or.inr ⟨_, rfl⟩

/-- The keys of the copy that the loop of `updateTickers` leaves: those it started
with and keys of entries of the batch. -/
theorem forEachEntry_keys (clock : Nat → Int) (us : List TickUpdate) (key : String) :
    ∀ (i : Nat) (td : TickerData) (b : Bool),
      ((lookup td key).isSome = true →
          (lookup (forEachEntry clock i us (td, b)).1 key).isSome = true)
      ∧ ((lookup (forEachEntry clock i us (td, b)).1 key).isSome = true →
          (lookup td key).isSome = true
            ∨ ∃ u ∈ us, key = instrumentKey u.symbol u.exchange) := by
  induction us with
  | nil => intro i td b; exact ⟨fun h => h, fun h => Or.inl h⟩
  | cons u rest ih =>
    intro i td b
    simp only [forEachEntry, applyEntry_eq]
    split
    · obtain ⟨h1, h2⟩ := ih (i + 1) (writeEntry td (u, clock i)) true
      constructor
      · intro h
        apply h1
        exact (lookup_upsert_isSome td _ key _).mpr (Or.inr h)
      · intro h
        rcases h2 h with h3 | ⟨v, hv, hkey⟩
        · rcases (lookup_upsert_isSome td _ key _).mp h3 with h4 | h4
          · exact Or.inr ⟨u, List.mem_cons_self _ _, h4⟩
          · exact Or.inl h4
        · exact Or.inr ⟨v, List.mem_cons_of_mem _ hv, hkey⟩
    · obtain ⟨h1, h2⟩ := ih (i + 1) td b
      constructor
      · exact h1
      · intro h
        rcases h2 h with h3 | ⟨v, hv, hkey⟩
        · exact Or.inl h3
        · exact Or.inr ⟨v, List.mem_cons_of_mem _ hv, hkey⟩

/-- C17: neither `updateTicker` nor `updateTickers` loses a key: every instrument key
of `tickerData` before the call is a key after it, so the number of keys does not go
down; and a key that is new after the call is the key formed from the (symbol,
exchange) of the call, or of an entry of the batch. -/
theorem ticker_keys_only_grow (state : State) :
    (∀ symbol exchange data now,
      (∀ key, (lookup state.tickerData key).isSome = true →
        (lookup (updateTicker symbol exchange data now state).tickerData key).isSome = true)
      ∧ keyCount state.tickerData
          ≤ keyCount (updateTicker symbol exchange data now state).tickerData
      ∧ (∀ key,
          (lookup (updateTicker symbol exchange data now state).tickerData key).isSome = true →
          (lookup state.tickerData key).isSome = true ∨ key = instrumentKey symbol exchange))
    ∧ (∀ updates clock,
      (∀ key, (lookup state.tickerData key).isSome = true →
        (lookup (updateTickers updates clock state).tickerData key).isSome = true)
      ∧ keyCount state.tickerData ≤ keyCount (updateTickers updates clock state).tickerData
      ∧ (∀ key,
          (lookup (updateTickers updates clock state).tickerData key).isSome = true →
          (lookup state.tickerData key).isSome = true
            ∨ ∃ u ∈ updates, key = instrumentKey u.symbol u.exchange)) := by
  constructor
  · intro symbol exchange data now
    have hkeep : ∀ key, (lookup state.tickerData key).isSome = true →
        (lookup (updateTicker symbol exchange data now state).tickerData key).isSome
          = true := by
      intro key h
      rcases updateTicker_tickerData symbol exchange data now state with he | ⟨snap, he⟩
      · rw [he]; exact h
      · rw [he]; exact (lookup_upsert_isSome _ _ key snap).mpr (Or.inr h)
    refine ⟨hkeep, keyCount_le_of_subset _ _ hkeep, ?_⟩
    intro key h
    rcases updateTicker_tickerData symbol exchange data now state with he | ⟨snap, he⟩
    · rw [he] at h; exact Or.inl h
    · rw [he] at h
      rcases (lookup_upsert_isSome _ _ key snap).mp h with h1 | h1
      · exact Or.inr h1
      · exact Or.inl h1
  · intro updates clock
    have hkeep : ∀ key, (lookup state.tickerData key).isSome = true →
        (lookup (updateTickers updates clock state).tickerData key).isSome = true := by
      intro key h
      rw [updateTickers_tickerData]
      exact (forEachEntry_keys clock updates key 0 state.tickerData false).1 h
    refine ⟨hkeep, keyCount_le_of_subset _ _ hkeep, ?_⟩
    intro key h
    rw [updateTickers_tickerData] at h
    exact (forEachEntry_keys clock updates key 0 state.tickerData false).2 h

theorem append_cons_inj {α : Type} (a : α) :
    ∀ (l1 l2 r1 r2 : List α), a ∉ l1 → a ∉ l2 → l1 ++ a :: r1 = l2 ++ a :: r2 →
      l1 = l2 ∧ r1 = r2 := by
  intro l1
  induction l1 with
  | nil =>
    intro l2 r1 r2 _ h2 h
    cases l2 with
    | nil => simpa using h
    | cons b l2 =>
      simp only [List.nil_append, List.cons_append, List.cons.injEq] at h
      exact absurd (by rw [← h.1]; exact List.mem_cons_self _ _) h2
  | cons c l1 ih =>
    intro l2 r1 r2 h1 h2 h
    cases l2 with
    | nil =>
      simp only [List.nil_append, List.cons_append, List.cons.injEq] at h
      exact absurd (by rw [h.1]; exact List.mem_cons_self _ _) h1
    | cons b l2 =>
      simp only [List.cons_append, List.cons.injEq] at h
      obtain ⟨h3, h4⟩ := ih l2 r1 r2 (fun hm => h1 (List.mem_cons_of_mem _ hm))
        (fun hm => h2 (List.mem_cons_of_mem _ hm)) h.2
      exact ⟨by rw [h.1, h3], h4⟩

/-- Keys of colon-free symbols are equal only for the same symbol and the same
exchange as read by `exchange || 'NSE'`. -/
theorem instrumentKey_inj (s1 s2 : String) (e1 e2 : Option String)
    (h1 : colonFree s1) (h2 : colonFree s2)
    (h : instrumentKey s1 e1 = instrumentKey s2 e2) :
    s1 = s2 ∧ exchangeOrNSE e1 = exchangeOrNSE e2 := by
  have hdata := congrArg String.data h
  simp only [instrumentKey, String.data_append] at hdata
  simp only [List.append_assoc, List.singleton_append] at hdata
  obtain ⟨h3, h4⟩ := append_cons_inj ':' _ _ _ _ h1 h2 hdata
  exact ⟨String.ext h3, String.ext h4⟩

end MarketDataStore

namespace MarketDataStore

/-- C20, as amended: for symbols that contain no colon, with an absent or empty
exchange read as "NSE", two keys are equal only if the symbols are equal and the
exchanges read the same; so a write by `updateTicker`, or by `updateTickers` with a
batch of such instruments, leaves what `getTicker` returns for a different
instrument as it was. -/
theorem colonFree_keys_identify (s1 s2 : String) (e1 e2 : Option String)
    (h1 : colonFree s1) (h2 : colonFree s2) :
    (instrumentKey s1 e1 = instrumentKey s2 e2 →
      s1 = s2 ∧ exchangeOrNSE e1 = exchangeOrNSE e2)
    ∧ ((s1 ≠ s2 ∨ exchangeOrNSE e1 ≠ exchangeOrNSE e2) →
        ∀ state data now,
          getTicker (updateTicker s1 e1 data now state) s2 e2 = getTicker state s2 e2)
    ∧ (∀ state updates clock,
        (∀ u ∈ updates, colonFree u.symbol
          ∧ (u.symbol ≠ s2 ∨ exchangeOrNSE u.exchange ≠ exchangeOrNSE e2)) →
        getTicker (updateTickers updates clock state) s2 e2 = getTicker state s2 e2) := by
  refine ⟨instrumentKey_inj s1 s2 e1 e2 h1 h2, ?_, ?_⟩
  · intro hdiff state data now
    have hkey : instrumentKey s2 e2 ≠ instrumentKey s1 e1 := by
      intro h
      obtain ⟨hs, he⟩ := instrumentKey_inj s1 s2 e1 e2 h1 h2 h.symm
      rcases hdiff with hd | hd
      · exact hd hs
      · exact hd he
    have hget : ∀ st : State, getTicker st s2 e2 = lookup st.tickerData (instrumentKey s2 e2) :=
      fun _ => rfl
    rw [hget, hget]
    rcases updateTicker_tickerData s1 e1 data now state with he | ⟨snap, he⟩
    · rw [he]
    · rw [he]; exact lookup_upsert_other _ _ _ _ hkey
  · intro state updates clock hall
    have hget : ∀ st : State, getTicker st s2 e2 = lookup st.tickerData (instrumentKey s2 e2) :=
      fun _ => rfl
    rw [hget, hget, updateTickers_tickerData]
    apply forEachEntry_lookup_other
    intro u hu h
    obtain ⟨hfree, hdiff⟩ := hall u hu
    obtain ⟨hs, he⟩ := instrumentKey_inj u.symbol s2 u.exchange e2 hfree h2 h
    rcases hdiff with hd | hd
    · exact hd hs
    · exact hd he

end MarketDataStore

namespace UseChart

theorem defaultSettings_fallback_own (indicatorConfigs : Catalog) (type : String)
    (h : indicatorConfigs type = none) (k : String)
    (hk : k = "id" ∨ k = "type" ∨ k = "visible") :
    defaultSettings indicatorConfigs type k = none := by
  simp only [defaultSettings, h, objectAssign, Obj.spread_empty]
  by_cases h1 : type = "sma"
  · subst h1
    rcases hk with rfl | rfl | rfl <;> decide
  · by_cases h2 : type = "ema"
    · subst h2
      rcases hk with rfl | rfl | rfl <;> decide
    · by_cases h3 : type = "tpo"
      · subst h3
        rcases hk with rfl | rfl | rfl <;> decide
      · simp [h1, h2, h3, Obj.empty]

theorem indicator_own (indicatorConfigs : Catalog) (activeChartId : Val) (type : String)
    (timestamp : Int) (random : ℚ) (k : String)
    (h : defaultSettings indicatorConfigs type k = none) :
    (addIndicator indicatorConfigs activeChartId type timestamp random).indicator k
      = (Obj.ofList [("id", .str (type ++ "_" ++ toString timestamp ++ "_"
            ++ toString (salt random))),
          ("type", .str type), ("visible", .bool true)]) k := by
  simp only [addIndicator, Obj.spread, h]

/-- The salt of a draw in [0, 1) is an integer from 0 to 999. -/
theorem salt_range (random : ℚ) (hd : Double.isDouble random) (h0 : 0 ≤ random)
    (h1 : random < 1) : 0 ≤ salt random ∧ salt random < 1000 := by
  obtain ⟨hlo, hhi⟩ := Double.nearest_mul_thousand random hd h0 h1
  constructor
  · exact Int.floor_nonneg.mpr hlo
  · rw [salt, Int.floor_lt]
    exact_mod_cast hhi

/-- The salt is the floor of the double product, which can exceed the floor of the
exact product: for the double nearest to 0.009 the double product is 9 and the exact
product is below 9. -/
theorem salt_nine_thousandths :
    Double.isDouble (5188146770730811 / 2 ^ 59)
    ∧ salt (5188146770730811 / 2 ^ 59) = 9
    ∧ ⌊(5188146770730811 / 2 ^ 59 * 1000 : ℚ)⌋ = 8 := by
  refine ⟨Double.isDouble_nine_thousandths, ?_, Double.nearest_nine_thousandths_mul.2⟩
  rw [salt, Double.nearest_nine_thousandths_mul.1]
  exact Int.floor_eq_iff.mpr ⟨by norm_num, by norm_num⟩

/-- C18, as amended: for a random draw in [0, 1), which is a double, the salt
`Math.floor(r * 1000)`, the floor of the double product, is an integer from 0 to 999,
and the indicator that `addIndicator` hands to the store has the id `type_t_salt`,
the requested type and `visible = true`, each of these unless the resolved settings
carry that very key, which then takes its place; they carry none of the three when
the catalog has no entry for the type. -/
theorem addIndicator_identity (indicatorConfigs : Catalog) (activeChartId : Val)
    (type : String) (timestamp : Int) (random : ℚ) (hd : Double.isDouble random)
    (h0 : 0 ≤ random) (h1 : random < 1) :
    (0 ≤ salt random ∧ salt random < 1000)
    ∧ (defaultSettings indicatorConfigs type "id" = none →
        (addIndicator indicatorConfigs activeChartId type timestamp random).indicator "id"
          = some (.str (type ++ "_" ++ toString timestamp ++ "_"
              ++ toString (salt random))))
    ∧ (defaultSettings indicatorConfigs type "type" = none →
        (addIndicator indicatorConfigs activeChartId type timestamp random).indicator "type"
          = some (.str type))
    ∧ (defaultSettings indicatorConfigs type "visible" = none →
        (addIndicator indicatorConfigs activeChartId type timestamp random).indicator "visible"
          = some (.bool true))
    ∧ (indicatorConfigs type = none →
        defaultSettings indicatorConfigs type "id" = none
        ∧ defaultSettings indicatorConfigs type "type" = none
        ∧ defaultSettings indicatorConfigs type "visible" = none) := by
  refine ⟨salt_range random hd h0 h1, ?_, ?_, ?_, ?_⟩
  · intro h
    rw [indicator_own _ _ _ _ _ "id" h]
    rfl
  · intro h
    rw [indicator_own _ _ _ _ _ "type" h]
    rfl
  · intro h
    rw [indicator_own _ _ _ _ _ "visible" h]
    rfl
  · intro h
    exact ⟨defaultSettings_fallback_own _ _ h "id" (Or.inl rfl),
      defaultSettings_fallback_own _ _ h "type" (Or.inr (Or.inl rfl)),
      defaultSettings_fallback_own _ _ h "visible" (Or.inr (Or.inr rfl))⟩

end UseChart

/-! ### The theorems at concrete inputs -/

namespace MarketDataStore

/-- C1, as stated, fails on a snapshot and a tick that both have the ltp `NaN`: the
ltp and the volume are the same, and the call is not suppressed, it stamps the
snapshot again. -/
theorem updateTicker_same_nan_restamps :
    storedField nanHeldState "S" none "ltp" = tickNaN.get "ltp"
    ∧ storedField nanHeldState "S" none "volume" = tickNaN.get "volume"
    ∧ storedField nanHeldState "S" none "lastUpdated" = Val.num 5
    ∧ storedField (updateTicker "S" none tickNaN 7 nanHeldState) "S" none "lastUpdated"
        = Val.num 7
    ∧ updateTicker "S" none tickNaN 7 nanHeldState ≠ nanHeldState := by
  refine ⟨by decide, by decide, by decide, by decide, ?_⟩
  intro h
  have h2 := congrArg (fun s => storedField s "S" none "lastUpdated") h
  revert h2
  decide

/-- C1, as amended, at a cache that holds `{ ltp: 100, volume: 10 }` for S:NSE and the
same tick, delivered with the exchange absent. -/
theorem updateTicker_unchanged_is_noop_witness :
    ((storedField heldState "S" none "ltp" = tick100.get "ltp"
        ∧ storedField heldState "S" none "volume" = tick100.get "volume")
      ∧ tick100.get "ltp" ≠ Val.nan ∧ tick100.get "volume" ≠ Val.nan)
    ∧ (updateTickerReducer "S" none tick100 7 heldState = Reduced.same
      ∧ updateTicker "S" none tick100 7 heldState = heldState) :=
  ⟨⟨⟨by decide, by decide⟩, by decide, by decide⟩,
    updateTicker_unchanged_is_noop heldState "S" none tick100 7 (by decide) (by decide)
      (by decide) (by decide)⟩

/-- C2 at the same cache and the tick `{ ltp: 101, volume: 10 }`. -/
theorem updateTicker_changed_merges_witness :
    (storedField heldState "S" none "ltp").strictEq (tick101.get "ltp") = false
    ∧ ∃ snap : Obj,
      getTicker (updateTicker "S" none tick101 9 heldState) "S" none = some snap
      ∧ (∀ f v, f ≠ "lastUpdated" → tick101 f = some v → snap f = some v)
      ∧ (∀ f, f ≠ "lastUpdated" → tick101 f = none → snap f = storedOwn heldState "S" none f)
      ∧ snap "lastUpdated" = some (Val.num 9)
      ∧ (∀ key2, key2 ≠ "S" ++ ":" ++ exchangeOrNSE none →
          lookup (updateTicker "S" none tick101 9 heldState).tickerData key2
            = lookup heldState.tickerData key2) :=
  ⟨by decide, updateTicker_changed_merges heldState "S" none tick101 9 (Or.inl (by decide))⟩

/-- C3, as stated, fails for a tick whose ltp is `NaN`: the tick has an ltp and a
volume, and the second call with the same tick is not suppressed, it stamps the
snapshot again. -/
theorem updateTicker_twice_nan :
    (tickNaN "ltp").isSome = true ∧ (tickNaN "volume").isSome = true
    ∧ storedField (updateTicker "S" (some "E") tickNaN 1 emptyState) "S" (some "E")
        "lastUpdated" = Val.num 1
    ∧ storedField (updateTicker "S" (some "E") tickNaN 2
          (updateTicker "S" (some "E") tickNaN 1 emptyState)) "S" (some "E")
        "lastUpdated" = Val.num 2
    ∧ updateTicker "S" (some "E") tickNaN 2 (updateTicker "S" (some "E") tickNaN 1 emptyState)
        ≠ updateTicker "S" (some "E") tickNaN 1 emptyState := by
  refine ⟨by decide, by decide, by decide, by decide, ?_⟩
  intro h
  have h2 := congrArg (fun s => storedField s "S" (some "E") "lastUpdated") h
  revert h2
  decide

/-- C3, as amended, at the empty cache and the tick `{ ltp: 100, volume: 10 }`. -/
theorem updateTicker_twice_same_data_witness :
    ((tick100 "ltp").isSome = true ∧ (tick100 "volume").isSome = true
      ∧ tick100.get "ltp" ≠ Val.nan ∧ tick100.get "volume" ≠ Val.nan)
    ∧ (updateTickerReducer "S" (some "E") tick100 2
          (updateTicker "S" (some "E") tick100 1 emptyState) = Reduced.same
      ∧ updateTicker "S" (some "E") tick100 2 (updateTicker "S" (some "E") tick100 1 emptyState)
          = updateTicker "S" (some "E") tick100 1 emptyState) :=
  ⟨⟨by decide, by decide, by decide, by decide⟩,
    updateTicker_twice_same_data emptyState "S" (some "E") tick100 1 2
      (by decide) (by decide) (by decide) (by decide)⟩

/-- C4, as stated, fails on a snapshot with the ltp `NaN` and a batch entry with the
ltp `NaN`: the entry has the ltp that is stored, and the batch is not a no-op, it
yields a partial state and stamps the snapshot again. -/
theorem updateTickers_same_nan_restamps :
    (∀ u ∈ nanBatch, storedField nanHeldState u.symbol u.exchange "ltp" = u.data.get "ltp")
    ∧ storedField nanHeldState "S" (some "NSE") "lastUpdated" = Val.num 5
    ∧ storedField (updateTickers nanBatch (fun _ => 7) nanHeldState) "S" (some "NSE")
        "lastUpdated" = Val.num 7
    ∧ updateTickers nanBatch (fun _ => 7) nanHeldState ≠ nanHeldState := by
  refine ⟨?_, by decide, by decide, ?_⟩
  · intro u hu
    simp only [nanBatch, List.mem_singleton] at hu
    subst hu
    decide
  · intro h
    have h2 := congrArg (fun s => storedField s "S" (some "NSE") "lastUpdated") h
    revert h2
    decide

/-- C4, as amended, at the batch that repeats the held ltp of S, and at the batch
A = 1, B = 2 on the empty cache. -/
theorem updateTickers_noop_or_combined_witness :
    (updateTickersReducer heldBatch (fun _ => 3) heldState = Reduced.same
      ∧ updateTickers heldBatch (fun _ => 3) heldState = heldState)
    ∧ (∃ u ∈ abBatch,
        storedField emptyState u.symbol u.exchange "ltp" ≠ u.data.get "ltp"
          ∨ u.data.get "ltp" = Val.nan)
    ∧ updateTickersReducer abBatch (fun i => i) emptyState
        = Reduced.patch
            ((changedEntries (fun i => i) 0 abBatch emptyState.tickerData).foldl writeEntry
              emptyState.tickerData)
    ∧ ∃ snap, getTicker (updateTickers abBatch (fun i => i) emptyState) "A" (some "NSE")
        = some snap ∧ snap "ltp" = some (Val.num 1) :=
  have hex : ∃ u ∈ abBatch,
      storedField emptyState u.symbol u.exchange "ltp" ≠ u.data.get "ltp"
        ∨ u.data.get "ltp" = Val.nan :=
    ⟨_, List.mem_cons_self _ _, Or.inl (by decide)⟩
  ⟨(updateTickers_noop_or_combined heldState heldBatch (fun _ => 3)).1
      (by
        intro u hu
        simp only [heldBatch, List.mem_singleton] at hu
        subst hu
        exact ⟨by decide, by decide⟩),
    hex,
    ((updateTickers_noop_or_combined emptyState abBatch (fun i => i)).2 hex).2.1,
    ((updateTickers_noop_or_combined emptyState abBatch (fun i => i)).2 hex).2.2
      [] ({ symbol := "A", exchange := some "NSE", data := Obj.ofList [("ltp", .num 1)] }, 0)
      [({ symbol := "B", exchange := some "NSE", data := Obj.ofList [("ltp", .num 2)] }, 1)]
      rfl "ltp" (.num 1) (by decide) rfl
      (by
        intro c2 hc2 hkey
        simp only [List.mem_singleton] at hc2
        subst hc2
        exact absurd hkey (by decide))⟩

/-- C5 at the batch A = 1, B = 2 on the empty cache. -/
theorem updateTickers_last_ltp_witness :
    (∀ u ∈ abBatch, u.data.get "ltp" ≠ Val.undefined)
    ∧ ((∀ u0 ∈ abBatch, ∃ ul ∈ abBatch,
          lastWithKey abBatch (instrumentKey u0.symbol u0.exchange) = some ul
          ∧ ∃ snap, getTicker (updateTickers abBatch (fun i => i) emptyState)
              u0.symbol u0.exchange = some snap ∧ snap.get "ltp" = ul.data.get "ltp")
      ∧ (∀ key, (∀ u ∈ abBatch, instrumentKey u.symbol u.exchange ≠ key) →
          lookup (updateTickers abBatch (fun i => i) emptyState).tickerData key
            = lookup emptyState.tickerData key)) :=
  have h : ∀ u ∈ abBatch, u.data.get "ltp" ≠ Val.undefined := by
    intro u hu
    simp only [abBatch, List.mem_cons, List.mem_singleton, List.not_mem_nil, or_false] at hu
    rcases hu with rfl | rfl <;> decide
  ⟨h, updateTickers_last_ltp emptyState abBatch (fun i => i) h⟩

/-- C7 at an accepted write of `{ ltp: 101, volume: 10 }` to S with the exchange
absent, by each write path. -/
theorem key_formation_shared_witness :
    updateTickerReducer "S" none tick101 9 heldState
        = Reduced.patch (upsert heldState.tickerData "S:NSE"
            (writtenSnapshot heldState "S" none tick101 9))
    ∧ getTicker (updateTicker "S" none tick101 9 heldState) "S" none
        = some (writtenSnapshot heldState "S" none tick101 9)
    ∧ updateTickersReducer [⟨"S", none, tick101⟩] (fun _ => 9) heldState
        = Reduced.patch (upsert heldState.tickerData "S:NSE"
            (writtenSnapshot heldState "S" none tick101 9))
    ∧ getTicker (updateTickers [⟨"S", none, tick101⟩] (fun _ => 9) heldState) "S" none
        = some (writtenSnapshot heldState "S" none tick101 9)
    ∧ ("BSE" : String) ≠ ""
    ∧ getTicker heldState "S" (some "BSE") = lookup heldState.tickerData ("S" ++ ":" ++ "BSE")
    ∧ upsert heldState.tickerData "S:BSE"
          (((Obj.empty.spread ((lookup heldState.tickerData "S:BSE").getD Obj.empty)).spread
            tick101).set "lastUpdated" (.num 9))
        = upsert heldState.tickerData ("S" ++ ":" ++ "BSE")
          (((Obj.empty.spread
            ((lookup heldState.tickerData ("S" ++ ":" ++ "BSE")).getD Obj.empty)).spread
              tick101).set "lastUpdated" (.num 9))
    ∧ getTicker heldState "S" (some "") = lookup heldState.tickerData ("S" ++ ":" ++ "NSE") :=
  ⟨rfl,
    ((key_formation_shared heldState "S" tick101).2.2.2.2.1 none 9 _ rfl).2,
    rfl,
    ((key_formation_shared heldState "S" tick101).2.2.2.2.2.1 none (fun _ => 9) _ rfl).2,
    by decide,
    ((key_formation_shared heldState "S" tick101).2.2.2.2.2.2.1 "BSE" (by decide)).1,
    ((key_formation_shared heldState "S" tick101).2.2.2.2.2.2.1 "BSE" (by decide)).2.1 9 _ rfl,
    ((key_formation_shared heldState "S" tick101).2.2.2.2.2.2.2 (some "") (Or.inr rfl)).1⟩

end MarketDataStore

namespace UseChart

/-- C8, as amended, at a workspace of two charts, for the id of the second chart, for
a stale id, and at the empty workspace. -/
theorem activeChart_and_current_fields_witness :
    activeChart twoCharts (.num 2) = twoCharts.get? 1
    ∧ activeChart twoCharts (.num 7) = twoCharts.head?
    ∧ currentSymbol twoCharts (.num 2) = .str "TCS"
    ∧ currentExchange twoCharts (.num 2) = .str "BSE"
    ∧ currentInterval twoCharts (.num 2) = .str "1h"
    ∧ currentSymbol [] (.num 2) = .str "NIFTY 50" :=
  ⟨(activeChart_and_current_fields twoCharts (.num 2)).1
      [{ id := .num 1, symbol := .str "RELIANCE", exchange := .str "NSE",
         interval := .str "5m", indicators := [], comparisonSymbols := some [],
         strategyConfig := .null }] _ [] rfl (by decide)
      (by
        intro d hd
        simp only [List.mem_singleton] at hd
        subst hd
        decide),
    (activeChart_and_current_fields twoCharts (.num 7)).2.1
      (by
        intro d hd
        simp only [twoCharts, List.mem_cons, List.mem_singleton, List.not_mem_nil,
          or_false] at hd
        rcases hd with rfl | rfl <;> decide),
    (activeChart_and_current_fields twoCharts (.num 2)).2.2.2.1.1 "TCS" (by decide) rfl,
    (activeChart_and_current_fields twoCharts (.num 2)).2.2.2.2.1.1 "BSE" (by decide) rfl,
    (activeChart_and_current_fields twoCharts (.num 2)).2.2.2.2.2.1.1 "1h" (by decide) rfl,
    ((activeChart_and_current_fields [] (.num 2)).2.2.2.2.2.2 rfl).1⟩

/-- C10, as stated, fails for two calls of the handler of one render: on the visible
indicator of the second of two charts both calls read `visible: true` from the charts
of that render and send `{ visible: false }`, so `visible` ends false and not at its
original value. -/
theorem toggle_twice_same_render :
    toggleIndicatorVisibility twoCharts (.num 2) (.str "sma_1_7")
      = some { chartId := .num 2, indicatorId := .str "sma_1_7",
               patch := Obj.ofList [("visible", .bool false)] }
    ∧ (∃ chart0 ind0,
        twoCharts.find? (fun c => c.id.strictEq (.num 2)) = some chart0
        ∧ chart0.indicators.find? (fun i => (i.get "id").strictEq (.str "sma_1_7"))
            = some ind0
        ∧ ind0 "visible" = some (.bool true))
    ∧ (∃ chart2 ind2,
        (afterToggle twoCharts (afterToggle twoCharts twoCharts (.num 2) (.str "sma_1_7"))
            (.num 2) (.str "sma_1_7")).find? (fun c => c.id.strictEq (.num 2)) = some chart2
        ∧ chart2.indicators.find? (fun i => (i.get "id").strictEq (.str "sma_1_7"))
            = some ind2
        ∧ ind2 "visible" = some (.bool false)
        ∧ ind2 "visible" ≠ some (.bool true)) := by
  refine ⟨rfl, ⟨_, _, rfl, rfl, rfl⟩, ⟨_, _, rfl, rfl, rfl, ?_⟩⟩
  intro h
  have h2 : (some (Val.bool false) : Option Val) = some (Val.bool true) := h
  revert h2
  decide

/-- C10, as amended, at the indicator of the second of two charts. -/
theorem toggle_twice_restores_witness :
    afterToggle (afterToggle twoCharts twoCharts (.num 2) (.str "sma_1_7"))
        (afterToggle twoCharts twoCharts (.num 2) (.str "sma_1_7")) (.num 2) (.str "sma_1_7")
      = twoCharts
    ∧ (∃ chart1 ind1,
        (afterToggle twoCharts twoCharts (.num 2) (.str "sma_1_7")).find?
            (fun c => c.id.strictEq (.num 2)) = some chart1
        ∧ chart1.indicators.find? (fun i => (i.get "id").strictEq (.str "sma_1_7")) = some ind1
        ∧ ind1 "visible" = some (Val.bool (!true))
        ∧ ∀ k, k ≠ "visible" →
            ind1 k = (Obj.ofList [("id", .str "sma_1_7"), ("type", .str "sma"),
              ("visible", .bool true), ("period", .num 20)]) k)
    ∧ afterToggle twoCharts (afterToggle twoCharts twoCharts (.num 2) (.str "sma_1_7"))
        (.num 2) (.str "sma_1_7")
      = afterToggle twoCharts twoCharts (.num 2) (.str "sma_1_7") :=
  toggle_twice_restores twoCharts (.num 2) (.str "sma_1_7") _ _ true rfl rfl rfl

end UseChart

namespace UseChart

theorem twoCharts_safe_ids : ∀ c ∈ twoCharts, isSafeInteger c.id = true := by
  intro c hc
  simp only [twoCharts, List.mem_cons, List.mem_singleton, List.not_mem_nil, or_false] at hc
  rcases hc with rfl | rfl <;> decide

theorem bigIdCharts_ne_nil : bigIdCharts ≠ [] := List.cons_ne_nil _ _

/-- On the ids 2^53 and 1 the largest id is 2^53 and the double sum 2^53 + 1 is 2^53
again. -/
theorem bigIdCharts_newId : (addChart noConversion bigIdCharts).newId = .num (2 ^ 53) := by
  have hmax : mathMax noConversion (bigIdCharts.map (fun c => c.id)) = .num (2 ^ 53) := by
    decide
  show addOne (mathMax noConversion (bigIdCharts.map (fun c => c.id))) = _
  rw [hmax, addOne_two_pow_53]

theorem bigIdCharts_after_add :
    (afterAddChart noConversion bigIdCharts).map (fun c => c.id)
      = [.num (2 ^ 53), .num 1, .num (2 ^ 53)] := by
  have h : (afterAddChart noConversion bigIdCharts).map (fun c => c.id)
      = [.num (2 ^ 53), .num 1, (addChart noConversion bigIdCharts).newId] := rfl
  rw [h, bigIdCharts_newId]

theorem oneBigIdChart_after_add :
    (addChartFrom noConversion oneBigIdChart oneBigIdChart).map (fun c => c.id)
      = [.num (2 ^ 53), .num (2 ^ 53)] := by
  have hmax : mathMax noConversion (oneBigIdChart.map (fun c => c.id)) = .num (2 ^ 53) := by
    decide
  have h : (addChartFrom noConversion oneBigIdChart oneBigIdChart).map (fun c => c.id)
      = [.num (2 ^ 53), addOne (mathMax noConversion (oneBigIdChart.map (fun c => c.id)))] :=
    rfl
  rw [h, hmax, addOne_two_pow_53]

theorem storeRemoveChart_ids (l : List Chart) (v : Val) :
    (storeRemoveChart l v).map (fun c => c.id)
      = (l.map (fun c => c.id)).filter (fun i => i.strictNe v) := by
  simp only [storeRemoveChart, List.filter_map]
  rfl

theorem twoCharts_ne_nil : twoCharts ≠ [] := List.cons_ne_nil _ _

theorem twoCharts_distinct_ids : (twoCharts.map (fun c => c.id)).Nodup := by
  decide

/-- C11 at the second of two charts, which has no comparison symbol: TCS / NSE is
added twice, in two colors. -/
theorem addComparisonSymbol_keeps_unique_witness :
    UniquePairs (activeComparison
        (afterAddComparison twoCharts (.num 2) "TCS" (some "NSE") (.str "#f00")) (.num 2))
    ∧ addComparisonSymbol
        (afterAddComparison twoCharts (.num 2) "TCS" (some "NSE") (.str "#f00"))
        (.num 2) "TCS" (some "NSE") (.str "#0f0") = none
    ∧ ((activeComparison
          (afterAddComparison
            (afterAddComparison twoCharts (.num 2) "TCS" (some "NSE") (.str "#f00"))
            (.num 2) "TCS" (some "NSE") (.str "#0f0")) (.num 2)).filter
        (samePair "TCS" (some "NSE"))).length = 1 :=
  have h := addComparisonSymbol_keeps_unique twoCharts (.num 2) _ "TCS" (some "NSE")
    (.str "#f00") (.str "#0f0") rfl List.Pairwise.nil
  ⟨h.1, h.2.2.1, h.2.2.2⟩

/-- C12 at a workspace of one chart and at one of two charts. -/
theorem removeChart_guard_witness :
    (removeChart blankSymbolCharts (.num 1) = none
      ∧ afterRemoveChart blankSymbolCharts (.num 1) = blankSymbolCharts
      ∧ (afterRemoveChart blankSymbolCharts (.num 1)).length = blankSymbolCharts.length)
    ∧ (removeChart twoCharts (.num 2) = some (.num 2)
      ∧ afterRemoveChart twoCharts (.num 2) = storeRemoveChart twoCharts (.num 2)) :=
  ⟨(removeChart_guard blankSymbolCharts (.num 1)).1 rfl,
    (removeChart_guard twoCharts (.num 2)).2 (by decide)⟩

/-- C13, as stated, fails on the integer ids 2^53 and 1: the largest id plus one is
2^53 + 1, which is no double, and the sum that `addChart` returns is 2^53, the id of
the first chart; the ids were distinct and are not once the chart is appended. -/
theorem addChart_reuses_id :
    bigIdCharts ≠ []
    ∧ (∀ c ∈ bigIdCharts, isInteger c.id = true)
    ∧ (bigIdCharts.map (fun c => c.id)).Nodup
    ∧ (addChart noConversion bigIdCharts).newId = .num (2 ^ 53)
    ∧ (addChart noConversion bigIdCharts).newId ≠ .num (2 ^ 53 + 1)
    ∧ (∃ c ∈ bigIdCharts, c.id = (addChart noConversion bigIdCharts).newId)
    ∧ ¬ ((afterAddChart noConversion bigIdCharts).map (fun c => c.id)).Nodup := by
  refine ⟨bigIdCharts_ne_nil, ?_, by decide, bigIdCharts_newId, ?_, ?_, ?_⟩
  · intro c hc
    simp only [bigIdCharts, List.mem_cons, List.mem_singleton, List.not_mem_nil,
      or_false] at hc
    rcases hc with rfl | rfl <;> rfl
  · rw [bigIdCharts_newId]
    decide
  · refine ⟨_, List.mem_cons_self _ _, ?_⟩
    rw [bigIdCharts_newId]
  · rw [bigIdCharts_after_add]
    decide

/-- C13, as amended, at a workspace of two charts with the ids 1 and 2. -/
theorem addChart_allocates_max_plus_one_witness :
    (twoCharts ≠ [] ∧ ∀ c ∈ twoCharts, isSafeInteger c.id = true)
    ∧ (∀ c ∈ twoCharts, c.id ≠ (addChart noConversion twoCharts).newId)
    ∧ ((afterAddChart noConversion twoCharts).map (fun c => c.id)).Nodup :=
  have h := addChart_allocates_max_plus_one noConversion twoCharts twoCharts_ne_nil
    twoCharts_safe_ids
  ⟨⟨twoCharts_ne_nil, twoCharts_safe_ids⟩, h.2.1, h.2.2.2 twoCharts_distinct_ids⟩

/-- C15, as stated, fails in three ways. On the workspace without charts the chart
that `addChart` appends is the only one, `removeChart` refuses to remove it, from the
render that shows it as from the render before, and one chart is left where there was
none. On the ids 2^53 and 1 the new chart gets the id 2^53 of the first chart and the
removal takes both. On one chart, `removeChart(newId)` called from the render of
`addChart()` counts one chart and makes no call, and two charts are left. -/
theorem addChart_then_removeChart_fails :
    (removeChart (afterAddChart noConversion []) (addChart noConversion []).newId = none
      ∧ removeChart [] (addChart noConversion []).newId = none
      ∧ (removeChartFrom (afterAddChart noConversion []) (afterAddChart noConversion [])
          (addChart noConversion []).newId).length = 1
      ∧ (removeChartFrom [] (afterAddChart noConversion [])
          (addChart noConversion []).newId).length = 1
      ∧ removeChartFrom (afterAddChart noConversion []) (afterAddChart noConversion [])
          (addChart noConversion []).newId ≠ [])
    ∧ (bigIdCharts.map (fun c => c.id) = [.num (2 ^ 53), .num 1]
      ∧ (removeChartFrom (afterAddChart noConversion bigIdCharts)
          (afterAddChart noConversion bigIdCharts)
          (addChart noConversion bigIdCharts).newId).map (fun c => c.id) = [.num 1])
    ∧ (blankSymbolCharts.length = 1
      ∧ removeChart blankSymbolCharts (addChart noConversion blankSymbolCharts).newId = none
      ∧ (removeChartFrom blankSymbolCharts (afterAddChart noConversion blankSymbolCharts)
          (addChart noConversion blankSymbolCharts).newId).length = 2) := by
  refine ⟨⟨rfl, rfl, rfl, rfl, ?_⟩, ⟨rfl, ?_⟩, ⟨rfl, rfl, rfl⟩⟩
  · intro h
    have h2 := congrArg List.length h
    revert h2
    decide
  · have hlen : ¬ (afterAddChart noConversion bigIdCharts).length ≤ 1 := by
      have h : (afterAddChart noConversion bigIdCharts).length = 3 := rfl
      omega
    simp only [removeChartFrom, removeChart, hlen, if_false]
    rw [storeRemoveChart_ids, bigIdCharts_after_add, bigIdCharts_newId]
    decide

/-- C15, as amended, at a workspace of two charts. -/
theorem addChart_then_removeChart_witness :
    (twoCharts ≠ [] ∧ ∀ c ∈ twoCharts, isSafeInteger c.id = true)
    ∧ removeChart (afterAddChart noConversion twoCharts)
          (addChart noConversion twoCharts).newId
        = some (addChart noConversion twoCharts).newId
    ∧ removeChartFrom (afterAddChart noConversion twoCharts)
        (afterAddChart noConversion twoCharts) (addChart noConversion twoCharts).newId
        = twoCharts
    ∧ removeChartFrom twoCharts (afterAddChart noConversion twoCharts)
        (addChart noConversion twoCharts).newId = twoCharts :=
  have h := addChart_then_removeChart noConversion twoCharts twoCharts_ne_nil
    twoCharts_safe_ids
  ⟨⟨twoCharts_ne_nil, twoCharts_safe_ids⟩, h.1, h.2.1, h.2.2.1 (by decide)⟩

/-- C16, as stated, fails in three ways. On two charts that share an id the guard
lets the call through, the store removes both and no chart is left. Two calls of
`removeChart` from one render of two charts with the ids 1 and 2 both pass the guard,
which counts the charts of that render, and no chart is left (with a render between
them the second call is refused). From one chart with the id 2^53, `addChart()`
appends a chart with the id 2^53 again, and after a render `removeChart` of that id
removes both. -/
theorem removeChart_empties_workspace :
    (1 ≤ sameIdCharts.length
      ∧ removeChart sameIdCharts (.num 1) = some (.num 1)
      ∧ (removeChartFrom sameIdCharts sameIdCharts (.num 1)).length = 0
      ∧ ¬ (1 ≤ (removeChartFrom sameIdCharts sameIdCharts (.num 1)).length))
    ∧ ((runOps noConversion (Workspace.mk twoCharts twoCharts)
          [.remove (.num 1), .remove (.num 2)]).store.length = 0
      ∧ (runOps noConversion (Workspace.mk twoCharts twoCharts)
          [.remove (.num 1), .render, .remove (.num 2)]).store.length = 1)
    ∧ (runOps noConversion (Workspace.mk oneBigIdChart oneBigIdChart)
          [.add, .render, .remove (.num (2 ^ 53))]).store.map (fun c => c.id) = [] := by
  refine ⟨⟨by decide, rfl, rfl, by decide⟩, ⟨rfl, rfl⟩, ?_⟩
  have hlen : ¬ (addChartFrom noConversion oneBigIdChart oneBigIdChart).length ≤ 1 := by
    have h : (addChartFrom noConversion oneBigIdChart oneBigIdChart).length = 2 := rfl
    omega
  simp only [runOps, step, removeChartFrom, removeChart, hlen, if_false]
  rw [storeRemoveChart_ids, oneBigIdChart_after_add]
  decide

/-- C16, as amended, at a workspace of two charts: one removal, and the sequence
add, remove 1, remove 2, remove 3 with a render after each call. -/
theorem removeChart_keeps_a_chart_witness :
    (twoCharts ≠ [] ∧ (twoCharts.map (fun c => c.id)).Nodup)
    ∧ 1 ≤ (removeChartFrom twoCharts twoCharts (.num 2)).length
    ∧ 1 ≤ (runOps noConversion (Workspace.mk twoCharts twoCharts)
        (renderAfterEach [.add, .remove (.num 1), .remove (.num 2),
          .remove (.num 3)])).store.length :=
  have h := removeChart_keeps_a_chart twoCharts twoCharts_ne_nil twoCharts_distinct_ids
  ⟨⟨twoCharts_ne_nil, twoCharts_distinct_ids⟩, h.1 (.num 2),
    (h.2 noConversion [.add, .remove (.num 1), .remove (.num 2), .remove (.num 3)]
      (by
        intro c hc
        simp only [twoCharts, List.mem_cons, List.mem_singleton, List.not_mem_nil,
          or_false] at hc
        rcases hc with rfl | rfl
        · exact ⟨1, rfl, by decide, by decide⟩
        · exact ⟨2, rfl, by decide, by decide⟩)).1⟩

/-- C18, as stated, fails on a catalog entry that declares defaults under `type` and
`visible`: they replace the requested type and `visible: true` in the indicator. -/
theorem addIndicator_shadowed_identity :
    (addIndicator shadowingCatalog (.num 1) "rsi" 1700000000000 (1 / 2)).indicator "type"
        = some (.str "line")
    ∧ (addIndicator shadowingCatalog (.num 1) "rsi" 1700000000000 (1 / 2)).indicator "type"
        ≠ some (.str "rsi")
    ∧ (addIndicator shadowingCatalog (.num 1) "rsi" 1700000000000 (1 / 2)).indicator "visible"
        = some (.bool false)
    ∧ (addIndicator shadowingCatalog (.num 1) "rsi" 1700000000000 (1 / 2)).indicator "visible"
        ≠ some (.bool true) := by
  decide

/-- C18, as amended, at type "sma" without a catalog entry and the draw
5188146770730811 / 2^59, the double nearest to 0.009: the double product with 1000 is
9, so the salt is 9 and the id ends in 9. -/
theorem addIndicator_identity_witness :
    (Double.isDouble (5188146770730811 / 2 ^ 59)
      ∧ (0 : ℚ) ≤ 5188146770730811 / 2 ^ 59 ∧ (5188146770730811 / 2 ^ 59 : ℚ) < 1)
    ∧ salt (5188146770730811 / 2 ^ 59) = 9
    ∧ (addIndicator (fun _ => none) (.num 1) "sma" 1700000000000
        (5188146770730811 / 2 ^ 59)).indicator "id" = some (.str "sma_1700000000000_9")
    ∧ (addIndicator (fun _ => none) (.num 1) "sma" 1700000000000
        (5188146770730811 / 2 ^ 59)).indicator "type" = some (.str "sma")
    ∧ (addIndicator (fun _ => none) (.num 1) "sma" 1700000000000
        (5188146770730811 / 2 ^ 59)).indicator "visible" = some (.bool true) :=
  have h := addIndicator_identity (fun _ => none) (.num 1) "sma" 1700000000000
    (5188146770730811 / 2 ^ 59) Double.isDouble_nine_thousandths (by norm_num) (by norm_num)
  ⟨⟨Double.isDouble_nine_thousandths, by norm_num, by norm_num⟩,
    salt_nine_thousandths.2.1,
    (h.2.1 (h.2.2.2.2 rfl).1).trans (by rw [salt_nine_thousandths.2.1]; decide),
    h.2.2.1 (h.2.2.2.2 rfl).2.1, h.2.2.2.1 (h.2.2.2.2 rfl).2.2⟩

/-- C19 at the second of two charts, which has no comparison symbol, and the pair
INFY / NSE. -/
theorem removeComparisonSymbol_filters_witness :
    (∀ c ∈ ([] : List ComparisonSymbol), ¬ (c.symbol = "INFY" ∧ c.exchange = some "NSE"))
    ∧ activeComparison
        (afterRemoveComparison
          (afterAddComparison twoCharts (.num 2) "INFY" (some "NSE") (.str "#00f"))
          (.num 2) "INFY" (some "NSE")) (.num 2) = []
    ∧ afterRemoveComparison
        (afterAddComparison twoCharts (.num 2) "INFY" (some "NSE") (.str "#00f"))
        (.num 2) "INFY" (some "NSE") = twoCharts :=
  have hno : ∀ c ∈ ([] : List ComparisonSymbol),
      ¬ (c.symbol = "INFY" ∧ c.exchange = some "NSE") := by
    intro c hc
    simp at hc
  have h := (removeComparisonSymbol_filters twoCharts (.num 2) _ "INFY" (some "NSE")
    (.str "#00f") rfl).2 hno
  ⟨hno, h.1, h.2 [] rfl⟩

end UseChart

namespace MarketDataStore

/-- C17 at a cache that holds S:NSE: a tick for another instrument, and the batch
A = 1, B = 2. -/
theorem ticker_keys_only_grow_witness :
    (lookup heldState.tickerData "S:NSE").isSome = true
    ∧ (lookup (updateTicker "T" none tick101 9 heldState).tickerData "S:NSE").isSome = true
    ∧ keyCount heldState.tickerData
        ≤ keyCount (updateTicker "T" none tick101 9 heldState).tickerData
    ∧ (lookup (updateTickers abBatch (fun i => i) heldState).tickerData "S:NSE").isSome = true
    ∧ keyCount heldState.tickerData
        ≤ keyCount (updateTickers abBatch (fun i => i) heldState).tickerData :=
  have h := ticker_keys_only_grow heldState
  ⟨by decide, (h.1 "T" none tick101 9).1 "S:NSE" (by decide), (h.1 "T" none tick101 9).2.1,
    (h.2 abBatch (fun i => i)).1 "S:NSE" (by decide), (h.2 abBatch (fun i => i)).2.1⟩

/-- C20, as stated, fails on a symbol with a colon and on an empty exchange: two
different instruments form one key, and a write to the one is what `getTicker`
returns for the other. -/
theorem instrumentKey_collision :
    instrumentKey "A:B" (some "C") = instrumentKey "A" (some "B:C")
    ∧ ("A:B" : String) ≠ "A"
    ∧ instrumentKey "A" (some "") = instrumentKey "A" (some "NSE")
    ∧ (some "" : Option String) ≠ some "NSE"
    ∧ (getTicker emptyState "A" (some "B:C")).isSome = false
    ∧ (getTicker (updateTicker "A:B" (some "C") tick100 1 emptyState) "A" (some "B:C")).isSome
        = true
    ∧ (getTicker (updateTickers [⟨"A:B", some "C", tick100⟩] (fun _ => 1) emptyState)
        "A" (some "B:C")).isSome = true := by
  decide

/-- C20, as amended, at the instruments A / NSE and B / absent. -/
theorem colonFree_keys_identify_witness :
    (colonFree "A" ∧ colonFree "B")
    ∧ ("A" ≠ "B" ∨ exchangeOrNSE (some "NSE") ≠ exchangeOrNSE none)
    ∧ getTicker (updateTicker "A" (some "NSE") tick100 1 heldState) "B" none
        = getTicker heldState "B" none :=
  have hA : colonFree "A" := by unfold colonFree; decide
  have hB : colonFree "B" := by unfold colonFree; decide
  have hd : "A" ≠ "B" ∨ exchangeOrNSE (some "NSE") ≠ exchangeOrNSE none :=
    Or.inl (by decide)
  ⟨⟨hA, hB⟩, hd,
    (colonFree_keys_identify "A" "B" (some "NSE") none hA hB).2.1 hd heldState tick100 1⟩

end MarketDataStore
